import Mathlib

/-!
Shallow embedding of the Poker_Evolver core: the hand evaluator
(`src/hand_evaluator.py`) and the heads-up game engine
(`src/game_engine.py`), together with theorems checking the
natural-language specification against this code.

Conventions used throughout:
* Python `int` is modelled as `Int` (ranks, which the source keeps in
  2..14, are modelled as `Nat` since only `==`, `>` and `- 1` on values
  ≥ 2 are used; `a.rank - 1 == b.rank` over Python ints is equivalent to
  `a.rank = b.rank + 1` over `Nat`).
* Python exceptions are modelled with `Option`: `none` means the Python
  code raises.
* Python's `sorted(..., reverse=True)` with rank-only comparison is a
  stable descending sort by rank; a stable sort with respect to a total
  preorder is a uniquely determined function, so it is modelled by the
  stable insertion sort `pySortDesc` below.
-/

namespace PokerEvolver

/-- `RANKS` dict of `hand_evaluator.py`: rank character to value 2..14. -/
def rankOfChar (c : Char) : Option Nat :=
  if c = '2' then some 2
  else if c = '3' then some 3
  else if c = '4' then some 4
  else if c = '5' then some 5
  else if c = '6' then some 6
  else if c = '7' then some 7
  else if c = '8' then some 8
  else if c = '9' then some 9
  else if c = 't' then some 10
  else if c = 'j' then some 11
  else if c = 'q' then some 12
  else if c = 'k' then some 13
  else if c = 'a' then some 14
  else none

/-- `SUITS` dict of `hand_evaluator.py`: suit character to value 0..3. -/
def suitOfChar (c : Char) : Option Nat :=
  if c = 's' then some 0
  else if c = 'd' then some 1
  else if c = 'c' then some 2
  else if c = 'h' then some 3
  else none

/-- A playing card: `Card.rank`/`Card.suit` of `hand_evaluator.py`. -/
structure Card where
  rank : Nat
  suit : Nat
deriving DecidableEq, Repr, Inhabited

/-- The character-level body of `Card.__init__`: exactly two
characters, the first a key of `RANKS`, the second a key of `SUITS`. -/
def parseCardChars : List Char → Option Card
  | [r, u] =>
    match rankOfChar r, suitOfChar u with
    | some rv, some sv => some ⟨rv, sv⟩
    | _, _ => none
  | _ => none

/-- `Card.__init__`: a 2-character token whose first character is a key
of `RANKS` and whose second is a key of `SUITS`; `none` models the
`ValueError` raised on any other token. -/
def parseCard (s : String) : Option Card :=
  parseCardChars s.data

/-- `Card.__eq__`: cards compare by rank only. -/
def cardEq (c d : Card) : Bool := c.rank = d.rank

/-- `Card.__gt__`: cards compare by rank only. -/
def cardGt (c d : Card) : Bool := c.rank > d.rank

/-- Stable insertion step for the descending-by-rank sort: the new card
goes in front of the first element whose rank is not greater, which
keeps the original order of equal-rank cards (Python's `sorted` is
stable). -/
def insertDescCard (c : Card) : List Card → List Card
  | [] => [c]
  | d :: rest => if d.rank > c.rank then d :: insertDescCard c rest else c :: d :: rest

/-- `sorted(cards, reverse=True)` with the rank-only card comparison:
stable descending sort by rank. -/
def pySortDesc : List Card → List Card
  | [] => []
  | c :: rest => insertDescCard c (pySortDesc rest)

/-- `HandType` enumeration of `hand_evaluator.py` (an `IntEnum`). -/
inductive HandType where
  | straight_flush
  | four_of_a_kind
  | full_house
  | flush
  | straight
  | three_of_a_kind
  | two_pair
  | pair
  | high_card
deriving DecidableEq, Repr

/-- The integer value of each `HandType` member in the source. -/
def HandType.val : HandType → Nat
  | .straight_flush => 8
  | .four_of_a_kind => 7
  | .full_house => 6
  | .flush => 5
  | .straight => 4
  | .three_of_a_kind => 3
  | .two_pair => 2
  | .pair => 1
  | .high_card => 0

/-- `Hand.all_n_of_a_kind`: for each rank from 14 down to 2 whose
occurrence count is exactly `n`, the group of cards of that rank, in
the order they appear in `cards`. -/
def allNOfAKind (n : Nat) (cards : List Card) (occ : List Nat) : List (List Card) :=
  ((List.range 13).map (fun k => 14 - k)).filterMap fun r =>
    if occ.getD r 0 = n then some (cards.filter (fun c => c.rank = r)) else none

/-- The kicker-extension loop shared by `four_of_a_kind`,
`three_of_a_kind`, `two_pair` and `pair`:
`for card in cards: if len(final) >= 5: break; if card not in final: final.append(card)`.
Python's `in` uses `Card.__eq__`, i.e. rank-only membership. -/
def extendTo5 (finalHand : List Card) : List Card → List Card
  | [] => finalHand
  | c :: rest =>
    if finalHand.length ≥ 5 then finalHand
    else if finalHand.any (fun d => d.rank = c.rank) then extendTo5 finalHand rest
    else extendTo5 (finalHand ++ [c]) rest

/-- `Hand.four_of_a_kind`. -/
def fourOfAKind (cards : List Card) (occ : List Nat) : Option (List Card) :=
  match allNOfAKind 4 cards occ with
  | [] => none
  | q :: _ => some (extendTo5 q cards)

/-- `Hand.full_house`: best exact-triple group plus best exact-pair
group; `None` when either is missing. -/
def fullHouse (cards : List Card) (occ : List Nat) : Option (List Card) :=
  match allNOfAKind 3 cards occ with
  | [] => none
  | t :: _ =>
    match allNOfAKind 2 cards occ with
    | [] => none
    | p :: _ => some (t ++ p)

/-- `Hand.flush`: the first suit (in suit order 0..3) with at least 5
members; the flush cards in input order, capped at five when
`onlyFiveGreatest` is set (the input is rank-descending, so the cap
keeps the greatest five). -/
def flushCards (cards : List Card) (onlyFiveGreatest : Bool) : Option (List Card) :=
  let counts := fun s => cards.countP (fun c => c.suit = s)
  match [0, 1, 2, 3].find? (fun s => counts s ≥ 5) with
  | none => none
  | some fs =>
    let hand := cards.filter (fun c => c.suit = fs)
    some (if onlyFiveGreatest then hand.take 5 else hand)

/-- Adjacent ranks strictly descending by exactly one
(`cards_slice[i].rank - 1 == cards_slice[i+1].rank` over Python ints is
`rank = rank' + 1` over `Nat`). -/
def isDescRun : List Card → Bool
  | [] => true
  | [_] => true
  | a :: b :: rest => (a.rank = b.rank + 1) && isDescRun (b :: rest)

/-- `are_consecutive_desc_cards` of `Hand.straight`. -/
def areConsecutiveDescCards (li : List Card) (start span : Nat) : Bool :=
  if start + span > li.length || li.length < 2 || span < 2 then false
  else isDescRun ((li.drop start).take span)

/-- The scan of `Hand.straight` over `enumerate(unique_cards)`: `u` is
the whole list, the second argument the current suffix, `i` its start
index.  At each index first try the ace-low wheel (a rank-5 card with
an ace on top and a 5-4-3-2 run) and otherwise a plain 5-card run;
first match wins. -/
def straightScan (u : List Card) : List Card → Nat → Option (List Card)
  | [], _ => none
  | c :: rest, i =>
    if c.rank = 5 && (u.headI.rank = 14) && areConsecutiveDescCards u i 4 then
      some (((u.drop i).take 4) ++ u.take 1)
    else if areConsecutiveDescCards u i 5 then
      some ((u.drop i).take 5)
    else
      straightScan u rest (i + 1)

/-- `Hand.straight`.  The Python body is
`unique_cards = sorted(list(set(cards)), reverse=True)`: `set` hashes by
the card string but compares by rank, so distinct card objects are never
merged and the re-sort restores the rank-descending order of the input
(which is always rank-descending sorted at both call sites); hence
`unique_cards` is the input itself. -/
def straightHand (cards : List Card) : Option (List Card) :=
  let unique_cards := cards
  if unique_cards.length < 5 then none
  else straightScan unique_cards unique_cards 0

/-- `Hand.three_of_a_kind`: triples flattened from quad groups (first
three of each) and triple groups, re-sorted, best three kept, extended
with kickers. -/
def threeOfAKind (cards : List Card) (occ : List Nat) : Option (List Card) :=
  let quads := allNOfAKind 4 cards occ
  let trips := allNOfAKind 3 cards occ
  let flattened := (quads.map (fun g => g.take 3)).flatten ++ trips.flatten
  if flattened.length < 3 then none
  else
    let sorted := pySortDesc flattened
    some (extendTo5 (sorted.take 3) cards)

/-- `Hand.two_pair`: pairs flattened from quad groups (as two pairs),
triple groups (first two) and pair groups, re-sorted, best four kept,
extended with a kicker. -/
def twoPair (cards : List Card) (occ : List Nat) : Option (List Card) :=
  let quads := allNOfAKind 4 cards occ
  let trips := allNOfAKind 3 cards occ
  let pairs := allNOfAKind 2 cards occ
  let flattened := (quads.map (fun g => g.take 2 ++ g.drop 2)).flatten
    ++ (trips.map (fun g => g.take 2)).flatten ++ pairs.flatten
  if flattened.length < 4 then none
  else
    let sorted := pySortDesc flattened
    some (extendTo5 (sorted.take 4) cards)

/-- `Hand.pair`: same flattening as `two_pair`, best two kept, extended
with kickers. -/
def pairHand (cards : List Card) (occ : List Nat) : Option (List Card) :=
  let quads := allNOfAKind 4 cards occ
  let trips := allNOfAKind 3 cards occ
  let pairs := allNOfAKind 2 cards occ
  let flattened := (quads.map (fun g => g.take 2 ++ g.drop 2)).flatten
    ++ (trips.map (fun g => g.take 2)).flatten ++ pairs.flatten
  if flattened.length < 2 then none
  else
    let sorted := pySortDesc flattened
    some (extendTo5 (sorted.take 2) cards)

/-- A constructed hand: the chosen best-five card sequence and the hand
category (`self.cards`, `self.type`). -/
structure Hand where
  cards : List Card
  type : HandType
deriving DecidableEq, Repr

/-- `rank_occurrences` list of `Hand.__init__`: `occ[r]` counts the
cards of rank `r` (indices 0..14). -/
def rankOccurrences (cards : List Card) : List Nat :=
  (List.range 15).map (fun r => cards.countP (fun c => c.rank = r))

/-- `Hand.__init__`: validate, parse, sort descending, then try each
category from straight flush down to high card; `none` models the
`ValueError` on duplicate tokens, fewer than five tokens, or an
unparsable token. -/
def mkHand (card_strs : List String) : Option Hand :=
  if ¬ card_strs.Nodup then none
  else if card_strs.length < 5 then none
  else
    match card_strs.mapM parseCard with
    | none => none
    | some parsed =>
      let cards := pySortDesc parsed
      let all_flush := flushCards cards false
      let occ := rankOccurrences cards
      let straight_flush := match all_flush with
        | some fl => straightHand fl
        | none => none
      match straight_flush with
      | some h => some ⟨h, .straight_flush⟩
      | none =>
        match fourOfAKind cards occ with
        | some h => some ⟨h, .four_of_a_kind⟩
        | none =>
          match fullHouse cards occ with
          | some h => some ⟨h, .full_house⟩
          | none =>
            match all_flush with
            | some fl => some ⟨fl.take 5, .flush⟩
            | none =>
              match straightHand cards with
              | some h => some ⟨h, .straight⟩
              | none =>
                match threeOfAKind cards occ with
                | some h => some ⟨h, .three_of_a_kind⟩
                | none =>
                  match twoPair cards occ with
                  | some h => some ⟨h, .two_pair⟩
                  | none =>
                    match pairHand cards occ with
                    | some h => some ⟨h, .pair⟩
                    | none => some ⟨cards.take 5, .high_card⟩

/-- Python list equality on card lists (`self.cards == other.cards`):
same length and element-wise `Card.__eq__`, i.e. element-wise equal
ranks. -/
def cardsEqList : List Card → List Card → Bool
  | [], [] => true
  | a :: as', b :: bs => (a.rank = b.rank) && cardsEqList as' bs
  | _, _ => false

/-- Python list ordering on card lists (`self.cards > other.cards`):
lexicographic by `Card.__eq__`/`Card.__gt__` (rank only), a longer list
beating its proper prefix. -/
def cardsGtList : List Card → List Card → Bool
  | _ :: _, [] => true
  | [], _ => false
  | a :: as', b :: bs => if a.rank = b.rank then cardsGtList as' bs else a.rank > b.rank

/-- `Hand.__eq__`: compares only the best-five card lists (rank-wise);
the hand category is not consulted. -/
def handEq (h1 h2 : Hand) : Bool := cardsEqList h1.cards h2.cards

/-- `Hand.__gt__`: category first, then the best-five lists
lexicographically by rank. -/
def handGt (h1 h2 : Hand) : Bool :=
  if h1.type.val > h2.type.val then true
  else if h1.type.val = h2.type.val then cardsGtList h1.cards h2.cards
  else false

/-- `Hand.__lt__` as derived by `functools.total_ordering` from
`__gt__` and `__eq__`: `not (self > other or self == other)`. -/
def handLt (h1 h2 : Hand) : Bool := !(handGt h1 h2 || handEq h1 h2)

/-! ## Game engine (`src/game_engine.py`) -/

/-- `Pot`: accumulated value and the players still contesting it. -/
structure Pot where
  value : Int
  players : List String
deriving DecidableEq, Repr

/-- The authoritative game state: the attributes of `PokerGame`.
`starting_stack` is kept because `start_new_hand` consults it on the
first hand. -/
structure GState where
  player_names : List String
  starting_stack : Int
  small_blind : Int
  big_blind : Int
  game_over : Bool
  winner : Option String
  held_money : List Int
  bet_money : List Int
  community_cards : List String
  pots : List Pot
  available_cards : List String
  actions_this_round : Nat
  players_cards : List (List String)
  index_of_small_blind : Nat
  index_to_action : Nat
deriving DecidableEq, Repr

/-- Python `list.pop()`: removes and returns the LAST element; `none`
models the `IndexError` on an empty list. -/
def popLast (l : List String) : Option (String × List String) :=
  match l.getLast? with
  | none => none
  | some c => some (c, l.dropLast)

/-- `PokerGame.apply_blinds`: post the (stack-capped) small and big
blinds into the round-bet trackers and set first action to the small
blind. -/
def applyBlinds (st : GState) : GState :=
  let sbIdx := st.index_of_small_blind
  let bbIdx := (sbIdx + 1) % 2
  let sbAmount := min st.small_blind (st.held_money.getD sbIdx 0)
  let held1 := st.held_money.set sbIdx (st.held_money.getD sbIdx 0 - sbAmount)
  let bet1 := st.bet_money.set sbIdx sbAmount
  let bbAmount := min st.big_blind (held1.getD bbIdx 0)
  let held2 := held1.set bbIdx (held1.getD bbIdx 0 - bbAmount)
  let bet2 := bet1.set bbIdx bbAmount
  { st with held_money := held2, bet_money := bet2, index_to_action := sbIdx }

/-- `PokerGame.start_new_hand`, with the shuffled fresh deck
(`random.sample(FULL_DECK, 52)` in the source) supplied as `newDeck`.
If either stack is empty the game ends instead; otherwise four hole
cards are popped off the deck end (two per player), the round state is
reset and blinds are posted. -/
def startNewHand (st : GState) (newDeck : List String) : Option GState :=
  match (List.range 2).find? (fun i => st.held_money.getD i 0 ≤ 0) with
  | some i =>
    some { st with game_over := true, winner := some (st.player_names.getD (1 - i) "") }
  | none =>
    match popLast newDeck with
    | none => none
    | some (c1, d1) =>
      match popLast d1 with
      | none => none
      | some (c2, d2) =>
        match popLast d2 with
        | none => none
        | some (c3, d3) =>
          match popLast d3 with
          | none => none
          | some (c4, d4) =>
            let st' := { st with
              players_cards := [[c1, c2], [c3, c4]],
              bet_money := [0, 0],
              community_cards := [],
              pots := [⟨0, st.player_names⟩],
              available_cards := d4,
              actions_this_round := 0 }
            some (applyBlinds st')

/-- `PokerGame.__init__` for two players: fresh stacks, hand dealt from
the supplied shuffled deck, button at index 0. -/
def initGame (names : List String) (startingStack : Int) (sb bb : Int)
    (deck : List String) : Option GState :=
  if names.length ≠ 2 then none
  else
    startNewHand
      { player_names := names
        starting_stack := startingStack
        small_blind := sb
        big_blind := bb
        game_over := false
        winner := none
        held_money := [startingStack, startingStack]
        bet_money := [0, 0]
        community_cards := []
        pots := []
        available_cards := []
        actions_this_round := 0
        players_cards := []
        index_of_small_blind := 0
        index_to_action := 0 } deck

/-- `PokerGame.get_max_bet`: the maximum over the non-folded round
bets.  (Python `max` raises on an empty sequence; the engine never
reaches that state, and the model returns 0 there.) -/
def getMaxBet (st : GState) : Int :=
  ((st.bet_money.filter (fun b => b ≠ -1)).max?).getD 0

/-- `PokerGame.get_min_raise`. -/
def getMinRaise (st : GState) : Int := 2 * getMaxBet st

/-- `PokerGame.is_valid_action`: fold always valid; zero only when the
round bet already matches the max bet; a positive amount must fit in
the stack and land on an exact call, a raise to at least twice the max
bet, or an all-in. -/
def isValidAction (st : GState) (raiseSize : Int) : Bool × String :=
  if raiseSize = -1 then (true, "Fold")
  else
    let currentBet := st.bet_money.getD st.index_to_action 0
    let maxBet := getMaxBet st
    let totalBet := currentBet + raiseSize
    let chipsAvailable := st.held_money.getD st.index_to_action 0
    if raiseSize > chipsAvailable then
      (false, "Not enough chips (have " ++ toString chipsAvailable ++ ")")
    else if raiseSize = 0 then
      if maxBet = currentBet then (true, "Check")
      else (false, "Cannot check, must call or fold")
    else if totalBet = maxBet then (true, "Call " ++ toString raiseSize)
    else
      let isAllIn := raiseSize = chipsAvailable
      if totalBet ≥ 2 * maxBet ∨ isAllIn then
        if isAllIn then (true, "All-in " ++ toString raiseSize)
        else (true, "Raise to " ++ toString totalBet)
      else (false, "Invalid raise (min raise to " ++ toString (getMinRaise st) ++ ")")

/-- The skip loop shared by `advance_action` and
`set_postflop_action`: starting from `i0`, advance past folded or
all-in seats, at most twice. -/
def skipFoldedOrAllIn (st : GState) (i0 : Nat) : Nat :=
  let bad := fun i => st.bet_money.getD i 0 = -1 ∨ st.held_money.getD i 0 = 0
  if bad i0 then
    let i1 := (i0 + 1) % 2
    if bad i1 then (i1 + 1) % 2 else i1
  else i0

/-- `PokerGame.advance_action`. -/
def advanceAction (st : GState) : GState :=
  { st with index_to_action := skipFoldedOrAllIn st ((st.index_to_action + 1) % 2) }

/-- `PokerGame.set_postflop_action`. -/
def setPostflopAction (st : GState) : GState :=
  { st with index_to_action := skipFoldedOrAllIn st st.index_of_small_blind }

/-- `PokerGame.is_betting_round_complete`. -/
def isBettingRoundComplete (st : GState) : Bool :=
  let active := (st.bet_money.filter (fun b => b ≠ -1)).length
  if active ≤ 1 then true
  else
    let bbOption :=
      st.community_cards.length = 0 ∧ st.actions_this_round < 2 ∧
        st.bet_money.getD ((st.index_of_small_blind + 1) % 2) 0 = st.big_blind ∧
        st.actions_this_round = 1
    if bbOption then false
    else if st.actions_this_round < 2 then false
    else
      let maxBet := getMaxBet st
      ([0, 1] : List Nat).all fun i =>
        st.bet_money.getD i 0 = -1 ∨ st.bet_money.getD i 0 = maxBet ∨
          ¬ st.held_money.getD i 0 > 0

/-- `PokerGame.check_fold_winner`: when a single non-folded player
remains, sweep the positive round bets into the main pot, award every
pot to that player, and either end the match or rotate the button and
deal the next hand (from `newDeck`).  Returns the possibly-updated state
and whether a fold-win fired. -/
def checkFoldWinner (st : GState) (newDeck : List String) : Option (GState × Bool) :=
  let playersIn := (List.range 2).filter (fun i => st.bet_money.getD i 0 ≠ -1)
  match playersIn with
  | [winnerIdx] =>
    let sweep := (st.bet_money.filter (fun b => b > 0)).sum
    let pots1 := match st.pots with
      | [] => []
      | p :: rest => { p with value := p.value + sweep } :: rest
    let potTotal := (pots1.map Pot.value).sum
    let held1 := st.held_money.set winnerIdx (st.held_money.getD winnerIdx 0 + potTotal)
    let pots2 := pots1.map (fun p => { p with value := 0 })
    let st1 := { st with held_money := held1, pots := pots2 }
    let loserIdx := 1 - winnerIdx
    if held1.getD loserIdx 0 ≤ 0 then
      let w := st1.player_names.getD winnerIdx ""
      some ({ st1 with game_over := true, winner := some w }, true)
    else
      let st2 := { st1 with index_of_small_blind := 1 - st1.index_of_small_blind }
      (startNewHand st2 newDeck).map (fun st3 => (st3, true))
  | _ => some (st, false)

/-- The dealing loop of `complete_betting_round` when someone is
all-in: `while len(community) < 5: deal flop (3 cards) or one card`.
Fuel 5 covers every reachable iteration count. -/
def dealLoop : Nat → GState → Option GState
  | 0, st => some st
  | fuel + 1, st =>
    if st.community_cards.length < 5 then
      if st.community_cards.length = 0 then
        match popLast st.available_cards with
        | none => none
        | some (c1, d1) =>
          match popLast d1 with
          | none => none
          | some (c2, d2) =>
            match popLast d2 with
            | none => none
            | some (c3, d3) =>
              dealLoop fuel { st with community_cards := [c1, c2, c3], available_cards := d3 }
      else
        match popLast st.available_cards with
        | none => none
        | some (c, d) =>
          dealLoop fuel { st with community_cards := st.community_cards ++ [c], available_cards := d }
    else some st

/-- All remaining community cards dealt at once (the all-in
fast-forward loop in `complete_betting_round`). -/
def dealAllRemaining (st : GState) : Option GState := dealLoop 5 st

/-- Stable insertion step for the descending hand sort at showdown:
a new entry goes in front of the first entry it is not `<` than, which
is Python's stable `sorted(..., reverse=True)`. -/
def insertHandDesc (x : Hand × Nat) : List (Hand × Nat) → List (Hand × Nat)
  | [] => [x]
  | y :: rest => if handLt x.1 y.1 then y :: insertHandDesc x rest else x :: y :: rest

/-- `sorted(hands, key=lambda x: x[0], reverse=True)`. -/
def sortHandsDesc : List (Hand × Nat) → List (Hand × Nat)
  | [] => []
  | x :: rest => insertHandDesc x (sortHandsDesc rest)

/-- `PokerGame.showdown`: evaluate the hands of the players still in
the main pot, award the pot to the strictly best hand or split it on a
tie (odd chip to the small blind when they are among the winners,
otherwise to the first winner), then end the match or rotate the button
and deal the next hand from `newDeck`. -/
def showdown (st : GState) (newDeck : List String) : Option GState :=
  let playersInPot := (List.range 2).filter
    (fun i => (match st.pots with
      | [] => false
      | p :: _ => (st.player_names.getD i "") ∈ p.players))
  match playersInPot with
  | [] => some st
  | [winnerIdx] =>
    let potTotal := ((st.pots.map Pot.value).sum)
    let held1 := st.held_money.set winnerIdx (st.held_money.getD winnerIdx 0 + potTotal)
    let pots1 := st.pots.map (fun p => { p with value := 0 })
    let st1 := { st with held_money := held1, pots := pots1 }
    afterAward st1 newDeck
  | _ =>
    match playersInPot.mapM
      (fun i => (mkHand (st.community_cards ++ st.players_cards.getD i [])).map
        (fun h => (h, i))) with
    | none => none
    | some handsRaw =>
      let hands := sortHandsDesc handsRaw
      match hands with
      | [] => none
      | best :: rest =>
        let winners := best :: rest.filter (fun t => handEq t.1 best.1)
        let potValue := (match st.pots with | [] => 0 | p :: _ => p.value)
        let amountEach := potValue / (winners.length : Int)
        let remainder := potValue % (winners.length : Int)
        let held1 := winners.foldl
          (fun h t => h.set t.2 (h.getD t.2 0 + amountEach)) st.held_money
        let held2 :=
          if remainder > 0 then
            if winners.any (fun t => t.2 = st.index_of_small_blind) then
              held1.set st.index_of_small_blind
                (held1.getD st.index_of_small_blind 0 + remainder)
            else
              held1.set best.2 (held1.getD best.2 0 + remainder)
          else held1
        let pots1 := match st.pots with
          | [] => []
          | p :: rest' => { p with value := 0 } :: rest'
        let st1 := { st with held_money := held2, pots := pots1 }
        afterAward st1 newDeck
where
  /-- The tail of `showdown`: end the match when a stack has emptied,
  otherwise rotate the button and start the next hand. -/
  afterAward (st : GState) (newDeck : List String) : Option GState :=
    match (List.range 2).find? (fun i => st.held_money.getD i 0 ≤ 0) with
    | some i =>
      some { st with game_over := true, winner := some (st.player_names.getD (1 - i) "") }
    | none =>
      startNewHand { st with index_of_small_blind := 1 - st.index_of_small_blind } newDeck

/-- The opening block of `PokerGame.complete_betting_round`: reset the
action counter, sweep every positive round bet into the main pot, and
zero the non-folded round-bet trackers. -/
def sweepAndReset (st : GState) : GState :=
  let st0 := { st with actions_this_round := 0 }
  let sweep := (st0.bet_money.filter (fun b => b > 0)).sum
  let pots1 := match st0.pots with
    | [] => []
    | p :: rest => { p with value := p.value + sweep } :: rest
  let bets1 := st0.bet_money.map (fun b => if b ≠ -1 then 0 else b)
  { st0 with pots := pots1, bet_money := bets1 }

/-- `PokerGame.complete_betting_round`: sweep the round bets into the
main pot, reset the trackers, fast-forward to showdown when someone is
all-in, otherwise deal the next street (or go to showdown after the
river). -/
def completeBettingRound (st : GState) (newDeck : List String) : Option GState :=
  let st1 := sweepAndReset st
  let bothAllIn := ([0, 1] : List Nat).all fun i =>
    st1.bet_money.getD i 0 ≠ -1 → st1.held_money.getD i 0 = 0
  let anyAllIn := ([0, 1] : List Nat).any fun i =>
    st1.held_money.getD i 0 = 0 ∧ st1.bet_money.getD i 0 ≠ -1
  if bothAllIn || anyAllIn then
    (dealAllRemaining st1).bind (fun st2 => showdown st2 newDeck)
  else if st1.community_cards.length = 0 then
    match popLast st1.available_cards with
    | none => none
    | some (c1, d1) =>
      match popLast d1 with
      | none => none
      | some (c2, d2) =>
        match popLast d2 with
        | none => none
        | some (c3, d3) =>
          some (setPostflopAction
            { st1 with community_cards := [c1, c2, c3], available_cards := d3 })
  else if st1.community_cards.length = 3 then
    match popLast st1.available_cards with
    | none => none
    | some (c, d) =>
      some (setPostflopAction
        { st1 with community_cards := st1.community_cards ++ [c], available_cards := d })
  else if st1.community_cards.length = 4 then
    match popLast st1.available_cards with
    | none => none
    | some (c, d) =>
      some (setPostflopAction
        { st1 with community_cards := st1.community_cards ++ [c], available_cards := d })
  else
    showdown st1 newDeck

/-- The body of `apply_action` after validation: count the action,
then either process the fold (`raiseSize' = -1`) or move the chips,
resolve a fold-win, advance the turn and complete the betting round
when due.  `raiseSize'` and `message` are the possibly auto-corrected
action and outcome message. -/
def applyActionExec (st : GState) (raiseSize' : Int) (message : String)
    (newDeck : List String) : Option (GState × String) :=
  let st0 := { st with actions_this_round := st.actions_this_round + 1 }
  if raiseSize' = -1 then
    let idx := st0.index_to_action
    let currTeam := st0.player_names.getD idx ""
    let st1 := { st0 with
      bet_money := st0.bet_money.set idx (-1),
      pots := st0.pots.map (fun p => { p with players := p.players.erase currTeam }) }
    (checkFoldWinner st1 newDeck).map fun r =>
      if r.2 then (r.1, message) else (advanceAction r.1, message)
  else
    let idx := st0.index_to_action
    let currTeam := st0.player_names.getD idx ""
    let inPot := match st0.pots with
      | [] => false
      | p :: _ => currTeam ∈ p.players
    if inPot then
      let st1 := { st0 with
        held_money := st0.held_money.set idx (st0.held_money.getD idx 0 - raiseSize'),
        bet_money := st0.bet_money.set idx (st0.bet_money.getD idx 0 + raiseSize') }
      (checkFoldWinner st1 newDeck).bind fun r =>
        if r.2 then some (r.1, message)
        else
          let st3 := advanceAction r.1
          if isBettingRoundComplete st3 then
            (completeBettingRound st3 newDeck).map (fun st4 => (st4, message))
          else some (st3, message)
    else
      some ({ st0 with bet_money := st0.bet_money.set idx (-1) },
        "Error: not in pot. Auto-fold.")

/-- `PokerGame.apply_action`: validate the requested action,
auto-correcting an invalid one to a fold with the substitution
message, then run the action body.  `newDeck` is the shuffled deck
used if a new hand starts. -/
def applyAction (st : GState) (raiseSize : Int) (newDeck : List String) :
    Option (GState × String) :=
  if (isValidAction st raiseSize).1 then
    applyActionExec st raiseSize (isValidAction st raiseSize).2 newDeck
  else
    applyActionExec st (-1) "Invalid action. Auto-fold." newDeck

/-- `PokerGame.get_visible_state_for_player` target shape: the
player-visible projection (`GameState` in the source). -/
structure VisibleState where
  index_to_action : Nat
  index_of_small_blind : Nat
  players : List String
  player_cards : List String
  held_money : List Int
  bet_money : List Int
  community_cards : List String
  pots : List Pot
  small_blind : Int
  big_blind : Int
deriving DecidableEq, Repr

/-- `PokerGame.get_visible_state_for_player`: copies of the public
fields plus only the viewing player's own hole cards. -/
def getVisibleStateForPlayer (st : GState) (playerIdx : Nat) : VisibleState :=
  { index_to_action := st.index_to_action
    index_of_small_blind := st.index_of_small_blind
    players := st.player_names
    player_cards := st.players_cards.getD playerIdx []
    held_money := st.held_money
    bet_money := st.bet_money
    community_cards := st.community_cards
    pots := st.pots
    small_blind := st.small_blind
    big_blind := st.big_blind }

/-- Total chips in play: both held stacks, both outstanding round bets
(the fold sentinel −1 counts as 0 chips), and all pot values. -/
def totalChips (st : GState) : Int :=
  (st.held_money.map (fun h => h)).sum
    + (st.bet_money.map (fun b => max b 0)).sum
    + (st.pots.map Pot.value).sum

/-! ## Concrete decks used by the scenario theorems.  `popLast` takes
cards from the end, mirroring Python's `list.pop()`. -/

/-- A shuffled deck for the first hand of the scenario theorems: hole
cards dealt from the end are kc, qc (player 0) and jc, tc (player 1). -/
def demoDeckA : List String :=
  ["2c", "3c", "4c", "5c", "6c", "7c", "8c", "9c", "tc", "jc", "qc", "kc"]

/-- A shuffled deck for a follow-up hand in the scenario theorems. -/
def demoDeckB : List String :=
  ["2d", "3d", "4d", "5d", "6d", "7d", "8d", "9d", "td", "jd", "qd", "kd"]

end PokerEvolver

namespace PokerEvolver

/-- C1: chip conservation fails at a fold.  In a fresh hand with stacks
[1000, 1000], blinds 5/10, the total chips in play start at 2000; after
the small blind folds, `apply_action` reports "Fold" but the total
drops to 1995: the folder's round bet is set to the −1 sentinel before
`check_fold_winner` sweeps only positive bets into the pot, so the
folder's 5 outstanding chips are destroyed instead of going to the
winner. -/
theorem c1_fold_destroys_chips :
    (initGame ["A", "B"] 1000 5 10 demoDeckA).map totalChips = some 2000
    ∧ ((initGame ["A", "B"] 1000 5 10 demoDeckA).bind
        (fun st0 => applyAction st0 (-1) demoDeckB)).map
          (fun r => (r.2, totalChips r.1))
      = some ("Fold", 1995) :=
  ⟨rfl, rfl⟩

/-- C2 counterexample: a flush (As Ks Qs Js 9s) and a high-card hand
with the same best-five ranks compare equal under `Hand.__eq__` (which
ignores the category) while also comparing greater under `Hand.__gt__`;
so a hand of strictly higher category can be equal to one of lower
category, and the comparison is not a strict total order as claimed. -/
theorem c2_eq_ignores_category :
    ((mkHand ["as", "ks", "qs", "js", "9s"]).bind fun hA =>
      (mkHand ["ah", "kd", "qc", "jc", "9h"]).map fun hB =>
        (hA.type, hB.type, handEq hA hB, handGt hA hB))
      = some (.flush, .high_card, true, true) := by
  decide

/-- C3 counterexample: [9s 8s 7s 6d 5c] evaluates to the straight
9-8-7-6-5, but adding 7h — a card irrelevant to that best five-card
hand — changes the result to a pair of sevens, because the duplicated
rank breaks the consecutive-rank scan in `Hand.straight`. -/
theorem c3_extra_card_changes_result :
    (mkHand ["9s", "8s", "7s", "6d", "5c"]).map
        (fun h => (h.type, h.cards.map Card.rank))
      = some (.straight, [9, 8, 7, 6, 5])
    ∧ (mkHand ["9s", "8s", "7s", "6d", "5c", "7h"]).map
        (fun h => (h.type, h.cards.map Card.rank))
      = some (.pair, [7, 7, 9, 8, 6]) := by
  constructor <;> decide

/-- C4: with two distinct triples and no exact pair (Ah Ad As Kh Kd Ks
Qh), `Hand.full_house` returns `None` — `all_n_of_a_kind(2, ...)` only
collects ranks with exactly two occurrences, so the second triple never
serves as the pair source — and the hand is classified as mere three of
a kind A-A-A-K-Q instead of the full house the claim (and poker rules)
require. -/
theorem c4_double_trips_not_full_house :
    (mkHand ["ah", "ad", "as", "kh", "kd", "ks", "qh"]).map
        (fun h => (h.type, h.cards.map Card.rank))
      = some (.three_of_a_kind, [14, 14, 14, 13, 12]) := by
  decide

/-- C6: big-blind last option preflop.  Stacks [1000, 1000], blinds
5/10: after the small blind calls to 10 the betting round is not
complete (no flop dealt, `is_betting_round_complete` is false, the big
blind is to act); after the big blind then checks, the round completes
and the flop is dealt. -/
theorem c6_big_blind_last_option :
    ((initGame ["A", "B"] 1000 5 10 demoDeckA).bind
        (fun st0 => applyAction st0 5 demoDeckB)).map
          (fun r => (r.2, r.1.community_cards, isBettingRoundComplete r.1,
            r.1.index_to_action))
      = some ("Call 5", [], false, 1)
    ∧ (((initGame ["A", "B"] 1000 5 10 demoDeckA).bind
        (fun st0 => applyAction st0 5 demoDeckB)).bind
          (fun r => applyAction r.1 0 demoDeckB)).map
            (fun r => (r.2, r.1.community_cards.length))
      = some ("Check", 3) :=
  ⟨rfl, rfl⟩

/-- C8 counterexample: the uppercase token "AS" is rejected by
`Card.__init__` — the `RANKS`/`SUITS` dictionaries contain only
lowercase characters and no case folding is performed — contradicting
the claimed case-insensitivity. -/
theorem c8_uppercase_rejected : parseCard "AS" = none :=
  rfl

/-- C10 counterexample: the valid 6-card input Ah Ad As Kh Kd Ks (two
triples, no other rank) produces a best-five sequence with only FOUR
cards: the kicker loop of `three_of_a_kind` skips every remaining card
because its rank is already in the partial hand. -/
theorem c10_four_card_best_five :
    (mkHand ["ah", "ad", "as", "kh", "kd", "ks"]).map
        (fun h => (h.type, h.cards.length))
      = some (.three_of_a_kind, 4) := by
  decide

/-- `parseCardChars` on a two-character token succeeds exactly when
both characters are recognised. -/
lemma parseCardChars_isSome (r u : Char) :
    (parseCardChars [r, u]).isSome = ((rankOfChar r).isSome && (suitOfChar u).isSome) := by
  rcases hr : rankOfChar r with _ | rv <;> rcases hu : suitOfChar u with _ | sv <;>
    simp [parseCardChars, hr, hu]

/-- The rank characters accepted by `RANKS` are exactly the thirteen
lowercase ones. -/
lemma rankOfChar_isSome_iff (c : Char) :
    (rankOfChar c).isSome = true ↔
      c ∈ ['2', '3', '4', '5', '6', '7', '8', '9', 't', 'j', 'q', 'k', 'a'] := by
  constructor
  · intro h
    unfold rankOfChar at h
    by_cases h1 : c = '2'
    · simp [h1]
    rw [if_neg h1] at h
    by_cases h2 : c = '3'
    · simp [h2]
    rw [if_neg h2] at h
    by_cases h3 : c = '4'
    · simp [h3]
    rw [if_neg h3] at h
    by_cases h4 : c = '5'
    · simp [h4]
    rw [if_neg h4] at h
    by_cases h5 : c = '6'
    · simp [h5]
    rw [if_neg h5] at h
    by_cases h6 : c = '7'
    · simp [h6]
    rw [if_neg h6] at h
    by_cases h7 : c = '8'
    · simp [h7]
    rw [if_neg h7] at h
    by_cases h8 : c = '9'
    · simp [h8]
    rw [if_neg h8] at h
    by_cases h9 : c = 't'
    · simp [h9]
    rw [if_neg h9] at h
    by_cases h10 : c = 'j'
    · simp [h10]
    rw [if_neg h10] at h
    by_cases h11 : c = 'q'
    · simp [h11]
    rw [if_neg h11] at h
    by_cases h12 : c = 'k'
    · simp [h12]
    rw [if_neg h12] at h
    by_cases h13 : c = 'a'
    · simp [h13]
    rw [if_neg h13] at h
    exact absurd h (by decide)
  · intro hm
    fin_cases hm <;> decide

/-- The suit characters accepted by `SUITS` are exactly the four
lowercase ones. -/
lemma suitOfChar_isSome_iff (c : Char) :
    (suitOfChar c).isSome = true ↔ c ∈ ['s', 'd', 'c', 'h'] := by
  constructor
  · intro h
    unfold suitOfChar at h
    split_ifs at h with h1 h2 h3 h4
    · simp [h1]
    · simp [h2]
    · simp [h3]
    · simp [h4]
    · exact absurd h (by decide)
  · intro hm
    fin_cases hm <;> decide

/-- C8 (amended): `Card` construction succeeds exactly for 2-character
tokens built from a LOWERCASE rank character in
{2,3,4,5,6,7,8,9,t,j,q,k,a} followed by a LOWERCASE suit character in
{s,d,c,h}; there is no case folding, so uppercase tokens such as "AS"
are construction failures. -/
theorem c8_token_validity (s : String) :
    (parseCard s).isSome = true ↔
      ∃ r u, s.data = [r, u]
        ∧ r ∈ ['2', '3', '4', '5', '6', '7', '8', '9', 't', 'j', 'q', 'k', 'a']
        ∧ u ∈ ['s', 'd', 'c', 'h'] := by
  unfold parseCard
  constructor
  · intro h
    rcases hl : s.data with _ | ⟨r, _ | ⟨u, _ | ⟨v, tl⟩⟩⟩
    · rw [hl, show parseCardChars [] = none from rfl] at h
      exact absurd h (by decide)
    · rw [hl, show parseCardChars [r] = none from rfl] at h
      exact absurd h (by decide)
    · rw [hl, parseCardChars_isSome, Bool.and_eq_true] at h
      exact ⟨r, u, rfl, (rankOfChar_isSome_iff r).mp h.1,
        (suitOfChar_isSome_iff u).mp h.2⟩
    · rw [hl] at h
      rw [show parseCardChars (r :: u :: v :: tl) = none from rfl] at h
      exact absurd h (by decide)
  · rintro ⟨r, u, hl, hrm, hum⟩
    rw [hl, parseCardChars_isSome, Bool.and_eq_true]
    exact ⟨(rankOfChar_isSome_iff r).mpr hrm, (suitOfChar_isSome_iff u).mpr hum⟩

/-- Witness for `c8_token_validity` at the concrete token "as". -/
theorem c8_token_validity_witness : (parseCard "as").isSome = true :=
  (c8_token_validity "as").mpr ⟨'a', 's', by decide, by decide, by decide⟩

/-- C9: the player-visible projection contains only the viewing
player's own hole cards, and it does not depend on the opponent's hole
cards: two authoritative states agreeing on every public field and on
the viewing player's own cards produce identical projections. -/
theorem c9_visible_state_noninterference (g1 g2 : GState) (idx : Nat)
    (hcards : g1.players_cards.getD idx [] = g2.players_cards.getD idx [])
    (hita : g1.index_to_action = g2.index_to_action)
    (hsb : g1.index_of_small_blind = g2.index_of_small_blind)
    (hnames : g1.player_names = g2.player_names)
    (hheld : g1.held_money = g2.held_money)
    (hbet : g1.bet_money = g2.bet_money)
    (hcomm : g1.community_cards = g2.community_cards)
    (hpots : g1.pots = g2.pots)
    (hsmall : g1.small_blind = g2.small_blind)
    (hbig : g1.big_blind = g2.big_blind) :
    getVisibleStateForPlayer g1 idx = getVisibleStateForPlayer g2 idx
    ∧ (getVisibleStateForPlayer g1 idx).player_cards
        = g1.players_cards.getD idx [] := by
  refine ⟨?_, rfl⟩
  unfold getVisibleStateForPlayer
  rw [hita, hsb, hnames, hheld, hbet, hcomm, hpots, hsmall, hbig, hcards]

/-- Two authoritative states that differ only in player 1's hole
cards, used to witness `c9_visible_state_noninterference` for the
viewing player 0. -/
def c9StateA : GState :=
  { player_names := ["A", "B"], starting_stack := 1000, small_blind := 5
    big_blind := 10, game_over := false, winner := none
    held_money := [995, 990], bet_money := [5, 10], community_cards := []
    pots := [⟨0, ["A", "B"]⟩], available_cards := demoDeckB
    actions_this_round := 0, players_cards := [["kc", "qc"], ["jc", "tc"]]
    index_of_small_blind := 0, index_to_action := 0 }

/-- Same as `c9StateA` with the opponent (player 1) holding different
hole cards. -/
def c9StateB : GState :=
  { c9StateA with players_cards := [["kc", "qc"], ["2d", "3d"]] }

/-- Witness for `c9_visible_state_noninterference`: player 0's
projection is identical across `c9StateA` and `c9StateB`. -/
theorem c9_visible_state_noninterference_witness :
    getVisibleStateForPlayer c9StateA 0 = getVisibleStateForPlayer c9StateB 0
    ∧ (getVisibleStateForPlayer c9StateA 0).player_cards
        = c9StateA.players_cards.getD 0 [] :=
  c9_visible_state_noninterference c9StateA c9StateB 0
    (by decide) rfl rfl rfl rfl rfl rfl rfl rfl rfl

/-- `popLast` on a nonempty list yields the last element and the list
without it. -/
lemma popLast_of_length_pos (l : List String) (h : 0 < l.length) :
    ∃ c l', popLast l = some (c, l') ∧ l'.length = l.length - 1 := by
  have hne : l ≠ [] := by
    intro he
    simp [he] at h
  obtain ⟨c, hc⟩ := Option.isSome_iff_exists.mp (List.getLast?_isSome.mpr hne)
  refine ⟨c, l.dropLast, ?_, ?_⟩
  · unfold popLast
    rw [hc]
  · exact List.length_dropLast l

/-- `start_new_hand` never raises when the fresh deck has at least the
four hole cards to deal. -/
lemma startNewHand_isSome (st : GState) (d : List String) (hd : 4 ≤ d.length) :
    (startNewHand st d).isSome = true := by
  unfold startNewHand
  cases hfind : (List.range 2).find? (fun i => st.held_money.getD i 0 ≤ 0) with
  | some i => simp
  | none =>
    obtain ⟨c1, d1, h1, hl1⟩ := popLast_of_length_pos d (by omega)
    obtain ⟨c2, d2, h2, hl2⟩ := popLast_of_length_pos d1 (by omega)
    obtain ⟨c3, d3, h3, hl3⟩ := popLast_of_length_pos d2 (by omega)
    obtain ⟨c4, d4, h4, hl4⟩ := popLast_of_length_pos d3 (by omega)
    simp [h1, h2, h3, h4]

/-- `check_fold_winner` never raises when the next-hand deck has at
least four cards. -/
lemma checkFoldWinner_isSome (st : GState) (d : List String) (hd : 4 ≤ d.length) :
    (checkFoldWinner st d).isSome = true := by
  unfold checkFoldWinner
  rcases hpl : (List.range 2).filter (fun i => st.bet_money.getD i 0 ≠ -1) with
    _ | ⟨a, _ | ⟨b, tl⟩⟩
  · simp only [hpl]
    simp
  · simp only [hpl]
    split_ifs with hle
    · rfl
    · rw [Option.isSome_map']
      exact startNewHand_isSome _ d hd
  · simp only [hpl]
    simp

/-- Every outcome of the fold branch of the action body carries the
given message. -/
lemma applyActionExec_fold_message (st : GState) (msg : String) (d : List String) :
    ∀ res ∈ applyActionExec st (-1) msg d, res.2 = msg := by
  intro res hres
  unfold applyActionExec at hres
  rw [if_pos rfl] at hres
  simp only [Option.mem_def, Option.map_eq_some'] at hres
  obtain ⟨x, _, hx⟩ := hres
  split_ifs at hx <;> simp [← hx]

/-- The fold branch of the action body never raises when the next-hand
deck has at least four cards. -/
lemma applyActionExec_fold_isSome (st : GState) (msg : String) (d : List String)
    (hd : 4 ≤ d.length) : (applyActionExec st (-1) msg d).isSome = true := by
  unfold applyActionExec
  rw [if_pos rfl, Option.isSome_map']
  exact checkFoldWinner_isSome _ d hd

/-- C5: every illegal raise request of the three claimed shapes — a
zero when the player's round bet is below the max bet, a positive
amount exceeding the remaining stack, or a positive amount landing on
neither a call, nor a raise to at least twice the max bet, nor an
all-in — is reported invalid; `apply_action` substitutes a fold whose
outcome message is "Invalid action. Auto-fold.", never raises (given a
fresh deck for a possible next hand), and a fold request (−1) is
always legal. -/
theorem c5_invalid_action_auto_folds (st : GState) (r : Int) (newDeck : List String)
    (hchips : 0 ≤ st.held_money.getD st.index_to_action 0)
    (hbad : (r = 0 ∧ st.bet_money.getD st.index_to_action 0 < getMaxBet st)
      ∨ (0 < r ∧ st.held_money.getD st.index_to_action 0 < r)
      ∨ (0 < r ∧ r ≤ st.held_money.getD st.index_to_action 0
          ∧ st.bet_money.getD st.index_to_action 0 + r ≠ getMaxBet st
          ∧ st.bet_money.getD st.index_to_action 0 + r < 2 * getMaxBet st
          ∧ r ≠ st.held_money.getD st.index_to_action 0)) :
    (isValidAction st r).1 = false
    ∧ (∀ res ∈ applyAction st r newDeck, res.2 = "Invalid action. Auto-fold.")
    ∧ (4 ≤ newDeck.length → (applyAction st r newDeck).isSome = true)
    ∧ isValidAction st (-1) = (true, "Fold") := by
  have hr1 : r ≠ -1 := by rcases hbad with ⟨h0, _⟩ | ⟨h0, _⟩ | ⟨h0, _⟩ <;> omega
  have hv : (isValidAction st r).1 = false := by
    unfold isValidAction
    rw [if_neg hr1]
    rcases hbad with ⟨h0, hlt⟩ | ⟨hpos, hgt⟩ | ⟨hpos, hle, hne, hlt2, hnall⟩
    · rw [if_neg (by omega : ¬ r > st.held_money.getD st.index_to_action 0)]
      rw [if_pos h0]
      rw [if_neg (by omega : ¬ getMaxBet st = st.bet_money.getD st.index_to_action 0)]
    · rw [if_pos (by omega : r > st.held_money.getD st.index_to_action 0)]
    · rw [if_neg (by omega : ¬ r > st.held_money.getD st.index_to_action 0)]
      rw [if_neg (by omega : ¬ r = 0)]
      rw [if_neg (by omega : ¬ st.bet_money.getD st.index_to_action 0 + r = getMaxBet st)]
      rw [if_neg (by
        rintro (h | h)
        · omega
        · exact hnall h)]
  have happ : applyAction st r newDeck
      = applyActionExec st (-1) "Invalid action. Auto-fold." newDeck := by
    unfold applyAction
    rw [hv]
    simp
  refine ⟨hv, ?_, ?_, rfl⟩
  · rw [happ]
    exact applyActionExec_fold_message _ _ newDeck
  · intro hd
    rw [happ]
    exact applyActionExec_fold_isSome _ _ newDeck hd


/-- A mid-preflop state (stacks 995/990, bets 5/10, small blind to
act) used to witness `c5_invalid_action_auto_folds` with the illegal
raise 7 (total 12: neither a call of 10, nor ≥ 20, nor all-in). -/
def c5State : GState :=
  { player_names := ["A", "B"], starting_stack := 1000, small_blind := 5
    big_blind := 10, game_over := false, winner := none
    held_money := [995, 990], bet_money := [5, 10], community_cards := []
    pots := [⟨0, ["A", "B"]⟩], available_cards := demoDeckA
    actions_this_round := 0, players_cards := [["kc", "qc"], ["jc", "tc"]]
    index_of_small_blind := 0, index_to_action := 0 }

/-- Witness for `c5_invalid_action_auto_folds` at `c5State` with the
illegal raise 7. -/
theorem c5_invalid_action_auto_folds_witness :
    (isValidAction c5State 7).1 = false
    ∧ (∀ res ∈ applyAction c5State 7 demoDeckB, res.2 = "Invalid action. Auto-fold.")
    ∧ (4 ≤ demoDeckB.length → (applyAction c5State 7 demoDeckB).isSome = true)
    ∧ isValidAction c5State (-1) = (true, "Fold") :=
  c5_invalid_action_auto_folds c5State 7 demoDeckB (by decide)
    (Or.inr (Or.inr (by decide)))

/-- The all-in runout loop of `complete_betting_round` deals the
community up to exactly five cards and never raises, for every
reachable street (0, 3 or 4 cards already dealt) when enough deck
remains. -/
lemma dealLoop_total (st : GState)
    (hc : st.community_cards.length = 0 ∨ st.community_cards.length = 3
      ∨ st.community_cards.length = 4)
    (ha : 5 ≤ st.community_cards.length + st.available_cards.length) :
    ∃ st2, dealAllRemaining st = some st2 ∧ st2.community_cards.length = 5 := by
  have hpop : ∀ (l : List String), 0 < l.length →
      ∃ c l', popLast l = some (c, l') ∧ l'.length = l.length - 1 := by
    intro l h
    have hne : l ≠ [] := by
      intro he
      simp [he] at h
    obtain ⟨c, hc'⟩ := Option.isSome_iff_exists.mp (List.getLast?_isSome.mpr hne)
    refine ⟨c, l.dropLast, ?_, List.length_dropLast l⟩
    unfold popLast
    rw [hc']
  rcases hc with h0 | h3 | h4
  · obtain ⟨c1, d1, hp1, hl1⟩ := hpop st.available_cards (by omega)
    obtain ⟨c2, d2, hp2, hl2⟩ := hpop d1 (by omega)
    obtain ⟨c3, d3, hp3, hl3⟩ := hpop d2 (by omega)
    obtain ⟨c4, d4, hp4, hl4⟩ := hpop d3 (by omega)
    obtain ⟨c5, d5, hp5, hl5⟩ := hpop d4 (by omega)
    refine ⟨{ st with community_cards := [c1, c2, c3, c4, c5], available_cards := d5 }, ?_, by simp⟩
    unfold dealAllRemaining
    simp only [dealLoop, h0, hp1, hp2, hp3, hp4, hp5]
    simp
  · obtain ⟨c4, d4, hp4, hl4⟩ := hpop st.available_cards (by omega)
    obtain ⟨c5, d5, hp5, hl5⟩ := hpop d4 (by omega)
    refine ⟨{ st with community_cards := st.community_cards ++ [c4] ++ [c5], available_cards := d5 }, ?_, by simp [h3]⟩
    unfold dealAllRemaining
    simp only [dealLoop, h3, hp4, hp5]
    simp [h3]
  · obtain ⟨c5, d5, hp5, hl5⟩ := hpop st.available_cards (by omega)
    refine ⟨{ st with community_cards := st.community_cards ++ [c5], available_cards := d5 }, ?_, by simp [h4]⟩
    unfold dealAllRemaining
    simp only [dealLoop, h4, hp5]
    simp [h4]

/-- C7: when a betting round completes with both players unfolded and
at least one stack at zero, `complete_betting_round` deals all
remaining community cards up to five in one go (no further betting:
`set_postflop_action` is never reached) and hands the resulting state
straight to `showdown`. -/
theorem c7_allin_fast_forward (st : GState) (newDeck : List String)
    (hlen : st.bet_money.length = 2)
    (hb0 : st.bet_money.getD 0 0 ≠ -1) (hb1 : st.bet_money.getD 1 0 ≠ -1)
    (hallin : st.held_money.getD 0 0 = 0 ∨ st.held_money.getD 1 0 = 0)
    (hcomm : st.community_cards.length = 0 ∨ st.community_cards.length = 3
      ∨ st.community_cards.length = 4)
    (havail : 5 ≤ st.community_cards.length + st.available_cards.length) :
    ∃ st2, dealAllRemaining (sweepAndReset st) = some st2
      ∧ st2.community_cards.length = 5
      ∧ completeBettingRound st newDeck = showdown st2 newDeck := by
  obtain ⟨b0, b1, hbm⟩ : ∃ b0 b1, st.bet_money = [b0, b1] := by
    rcases hx : st.bet_money with _ | ⟨x, _ | ⟨y, _ | ⟨z, tl⟩⟩⟩ <;>
      rw [hx] at hlen <;> simp at hlen
    exact ⟨x, y, rfl⟩
  have hb0' : b0 ≠ -1 := by
    rw [hbm] at hb0
    simpa using hb0
  have hb1' : b1 ≠ -1 := by
    rw [hbm] at hb1
    simpa using hb1
  obtain ⟨st2, hdeal, hlen5⟩ :=
    dealLoop_total (sweepAndReset st) (by exact hcomm) (by exact havail)
  refine ⟨st2, hdeal, hlen5, ?_⟩
  simp only [completeBettingRound]
  have hany : (([0, 1] : List Nat).any fun i =>
      decide ((sweepAndReset st).held_money.getD i 0 = 0
        ∧ (sweepAndReset st).bet_money.getD i 0 ≠ -1)) = true := by
    rw [List.any_eq_true]
    rcases hallin with h | h
    · refine ⟨0, by simp, ?_⟩
      simp [sweepAndReset, hbm, hb0']
      simpa using h
    · refine ⟨1, by simp, ?_⟩
      simp [sweepAndReset, hbm, hb1']
      simpa using h
  rw [hany, Bool.or_true, if_pos rfl, hdeal]
  rfl


/-- A preflop state in which both players are all-in (stacks 0/0, round
bets 1000/1000), used to witness `c7_allin_fast_forward`. -/
def c7State : GState :=
  { player_names := ["A", "B"], starting_stack := 1000, small_blind := 5
    big_blind := 10, game_over := false, winner := none
    held_money := [0, 0], bet_money := [1000, 1000], community_cards := []
    pots := [⟨0, ["A", "B"]⟩], available_cards := demoDeckA
    actions_this_round := 2, players_cards := [["kc", "qc"], ["jc", "tc"]]
    index_of_small_blind := 0, index_to_action := 1 }

/-- Witness for `c7_allin_fast_forward` at the both-all-in state. -/
theorem c7_allin_fast_forward_witness :
    ∃ st2, dealAllRemaining (sweepAndReset c7State) = some st2
      ∧ st2.community_cards.length = 5
      ∧ completeBettingRound c7State demoDeckB = showdown st2 demoDeckB :=
  c7_allin_fast_forward c7State demoDeckB (by decide) (by decide) (by decide)
    (by decide) (by decide) (by decide)

/-- Python list equality on cards is exactly equality of the rank
sequences. -/
lemma cardsEqList_iff (as bs : List Card) :
    cardsEqList as bs = true ↔ as.map Card.rank = bs.map Card.rank := by
  induction as generalizing bs with
  | nil => cases bs <;> simp [cardsEqList]
  | cons a as' ih =>
    cases bs with
    | nil => simp [cardsEqList]
    | cons b bs' => simp [cardsEqList, ih]

/-- Python's lexicographic card-list comparison is irreflexive. -/
lemma cardsGtList_irrefl (as : List Card) : cardsGtList as as = false := by
  induction as with
  | nil => rfl
  | cons a as' ih => simp [cardsGtList, ih]

/-- Python's lexicographic card-list comparison is asymmetric. -/
lemma cardsGtList_asymm (as bs : List Card) (h : cardsGtList as bs = true) :
    cardsGtList bs as = false := by
  induction as generalizing bs with
  | nil => cases bs <;> simp_all [cardsGtList]
  | cons a as' ih =>
    cases bs with
    | nil => simp [cardsGtList]
    | cons b bs' =>
      simp only [cardsGtList] at h ⊢
      by_cases hab : a.rank = b.rank
      · rw [if_pos hab] at h
        rw [if_pos hab.symm]
        exact ih bs' h
      · rw [if_neg hab] at h
        rw [if_neg (fun hh => hab hh.symm)]
        simp at h ⊢
        omega

/-- Python's lexicographic card-list comparison is transitive. -/
lemma cardsGtList_trans (as bs cs : List Card) (h1 : cardsGtList as bs = true)
    (h2 : cardsGtList bs cs = true) : cardsGtList as cs = true := by
  induction as generalizing bs cs with
  | nil => simp_all [cardsGtList]
  | cons a as' ih =>
    cases bs with
    | nil => simp_all [cardsGtList]
    | cons b bs' =>
      cases cs with
      | nil => rfl
      | cons c cs' =>
        simp only [cardsGtList] at h1 h2 ⊢
        by_cases hab : a.rank = b.rank <;> by_cases hbc : b.rank = c.rank
        · rw [if_pos hab] at h1
          rw [if_pos hbc] at h2
          rw [if_pos (hab.trans hbc)]
          exact ih bs' cs' h1 h2
        · rw [if_pos hab] at h1
          rw [if_neg hbc] at h2
          simp at h2
          rw [if_neg (by omega)]
          simp
          omega
        · rw [if_neg hab] at h1
          simp at h1
          rw [if_pos hbc] at h2
          rw [if_neg (by omega)]
          simp
          omega
        · rw [if_neg hab] at h1
          rw [if_neg hbc] at h2
          simp at h1 h2
          rw [if_neg (by omega)]
          simp
          omega

/-- Trichotomy for the lexicographic card-list comparison, up to
equality of the rank sequences. -/
lemma cardsGtList_total (as bs : List Card) :
    cardsGtList as bs = true ∨ cardsGtList bs as = true
      ∨ as.map Card.rank = bs.map Card.rank := by
  induction as generalizing bs with
  | nil =>
    cases bs with
    | nil => simp
    | cons b bs' => simp [cardsGtList]
  | cons a as' ih =>
    cases bs with
    | nil => simp [cardsGtList]
    | cons b bs' =>
      by_cases hab : a.rank = b.rank
      · rcases ih bs' with h | h | h
        · left
          simp only [cardsGtList]
          rw [if_pos hab]
          exact h
        · right
          left
          simp only [cardsGtList]
          rw [if_pos hab.symm]
          exact h
        · right
          right
          simp [hab, h]
      · rcases Nat.lt_or_ge a.rank b.rank with hlt | hge
        · right
          left
          simp only [cardsGtList]
          rw [if_neg (fun hh => hab hh.symm)]
          simp
          omega
        · left
          simp only [cardsGtList]
          rw [if_neg hab]
          simp
          omega

/-- C2 (amended): `Hand.__gt__` compares the category first, then the
best-five sequences element-wise by rank; it is irreflexive, asymmetric
and transitive, and a hand of strictly higher category always compares
greater.  `Hand.__eq__`, however, compares ONLY the best-five rank
sequences — within an equal category equality coincides with equal
best-five rank sequences (the split-pot case), but two hands of
different categories with the same rank sequence are also "equal", and
`__gt__`/`__eq__`/`__lt__` only satisfy trichotomy up to that
rank-sequence equality, not a strict total order on hands. -/
theorem c2_hand_order_amended (h1 h2 h3 : Hand) :
    (handEq h1 h2 = true ↔ h1.cards.map Card.rank = h2.cards.map Card.rank)
    ∧ (h1.type.val > h2.type.val → handGt h1 h2 = true)
    ∧ handGt h1 h1 = false
    ∧ (handGt h1 h2 = true → handGt h2 h1 = false)
    ∧ (handGt h1 h2 = true → handGt h2 h3 = true → handGt h1 h3 = true)
    ∧ (handGt h1 h2 = true ∨ handGt h2 h1 = true ∨ handEq h1 h2 = true) := by
  refine ⟨cardsEqList_iff h1.cards h2.cards, ?_, ?_, ?_, ?_, ?_⟩
  · intro hgt
    unfold handGt
    rw [if_pos hgt]
  · unfold handGt
    simp [cardsGtList_irrefl]
  · intro hgt
    unfold handGt at hgt ⊢
    by_cases ht : h1.type.val > h2.type.val
    · rw [if_neg (by omega), if_neg (by omega)]
    · rw [if_neg ht] at hgt
      by_cases he : h1.type.val = h2.type.val
      · rw [if_pos he] at hgt
        rw [if_neg (by omega), if_pos (by omega)]
        exact cardsGtList_asymm _ _ hgt
      · rw [if_neg he] at hgt
        exact absurd hgt (by decide)
  · intro h12 h23
    unfold handGt at h12 h23 ⊢
    by_cases ht12 : h1.type.val > h2.type.val <;> by_cases ht23 : h2.type.val > h3.type.val
    · rw [if_pos (by omega)]
    · by_cases he23 : h2.type.val = h3.type.val
      · rw [if_pos (by omega)]
      · rw [if_neg ht23, if_neg he23] at h23
        exact absurd h23 (by decide)
    · by_cases he12 : h1.type.val = h2.type.val
      · rw [if_pos (by omega)]
      · rw [if_neg ht12, if_neg he12] at h12
        exact absurd h12 (by decide)
    · by_cases he12 : h1.type.val = h2.type.val
      · by_cases he23 : h2.type.val = h3.type.val
        · rw [if_neg ht12, if_pos he12] at h12
          rw [if_neg ht23, if_pos he23] at h23
          rw [if_neg (by omega), if_pos (by omega)]
          exact cardsGtList_trans _ _ _ h12 h23
        · rw [if_neg ht23, if_neg he23] at h23
          exact absurd h23 (by decide)
      · rw [if_neg ht12, if_neg he12] at h12
        exact absurd h12 (by decide)
  · unfold handGt handEq
    rcases Nat.lt_trichotomy h1.type.val h2.type.val with ht | ht | ht
    · right
      left
      rw [if_pos ht]
    · rcases cardsGtList_total h1.cards h2.cards with h | h | h
      · left
        rw [if_neg (by omega), if_pos ht, h]
      · right
        left
        rw [if_neg (by omega), if_pos (by omega), h]
      · right
        right
        rw [(cardsEqList_iff _ _).mpr h]
    · left
      rw [if_pos ht]


/-- The flush hand of the C2 counterexample. -/
def c2HandA : Hand :=
  ⟨[⟨14, 0⟩, ⟨13, 0⟩, ⟨12, 0⟩, ⟨11, 0⟩, ⟨9, 0⟩], .flush⟩

/-- The rank-equal high-card hand of the C2 counterexample. -/
def c2HandB : Hand :=
  ⟨[⟨14, 3⟩, ⟨13, 1⟩, ⟨12, 2⟩, ⟨11, 2⟩, ⟨9, 3⟩], .high_card⟩

/-- Witness for `c2_hand_order_amended`: the higher-category hand
compares greater at a concrete pair. -/
theorem c2_hand_order_amended_witness : handGt c2HandA c2HandB = true :=
  (c2_hand_order_amended c2HandA c2HandB c2HandB).2.1 (by decide)

/-- Total parse used to state parsed-card facts: the parsed card, with
a dummy placeholder for invalid tokens. -/
def parseCardD (t : String) : Card := (parseCard t).getD ⟨0, 0⟩

/-- When every token parses, `mapM` succeeds with the pointwise
parses. -/
lemma mapM_parseCard_eq (ts : List String)
    (hp : ∀ t ∈ ts, (parseCard t).isSome = true) :
    ts.mapM parseCard = some (ts.map parseCardD) := by
  induction ts with
  | nil => rfl
  | cons t ts' ih =>
    obtain ⟨c, hc⟩ := Option.isSome_iff_exists.mp (hp t (by simp))
    rw [List.mapM_cons, hc, ih (fun x hx => hp x (by simp [hx]))]
    simp [parseCardD, hc]

lemma rankOccurrences_getD (cards : List Card) (r : Nat) (hr : r < 15) :
    (rankOccurrences cards).getD r 0 = cards.countP (fun c => c.rank = r) := by
  unfold rankOccurrences
  rw [List.getD_eq_getElem?_getD, List.getElem?_map, List.getElem?_range hr]
  rfl

/-- Every group returned by `all_n_of_a_kind` has exactly `n` cards. -/
lemma allN_mem_length (n : Nat) (cards : List Card) (g : List Card)
    (hg : g ∈ allNOfAKind n cards (rankOccurrences cards)) : g.length = n := by
  unfold allNOfAKind at hg
  rw [List.mem_filterMap] at hg
  obtain ⟨r, hr, hfr⟩ := hg
  split_ifs at hfr with hocc
  have hg' : g = cards.filter (fun c => c.rank = r) := by
    injection hfr with h
    exact h.symm
  have hr15 : r < 15 := by
    simp only [List.mem_map, List.mem_range] at hr
    obtain ⟨k, hk, hkr⟩ := hr
    omega
  rw [hg', ← List.countP_eq_length_filter, ← rankOccurrences_getD cards r hr15]
  exact hocc

/-- The kicker-extension loop never grows a hand beyond five cards. -/
lemma extendTo5_length (finalHand cards : List Card) (h : finalHand.length ≤ 5) :
    (extendTo5 finalHand cards).length ≤ 5 := by
  induction cards generalizing finalHand with
  | nil => exact h
  | cons c rest ih =>
    unfold extendTo5
    split_ifs with h5 hmem
    · exact h
    · exact ih finalHand h
    · rcases Nat.lt_or_ge finalHand.length 5 with hlt | hge
      · exact ih (finalHand ++ [c]) (by simp; omega)
      · exact absurd hge (by omega)

/-- Every straight returned by the scan has at most five cards. -/
lemma straightScan_length (u : List Card) (l : List Card) (i : Nat) (h : List Card)
    (hs : straightScan u l i = some h) : h.length ≤ 5 := by
  induction l generalizing i with
  | nil => exact absurd hs (by simp [straightScan])
  | cons c rest ih =>
    unfold straightScan at hs
    split_ifs at hs with h1 h2 <;>
      first
        | exact ih (i + 1) hs
        | (injection hs with hh
           rw [← hh]
           simp only [List.length_append, List.length_take]
           omega)

/-- `Hand.straight` returns at most five cards. -/
lemma straightHand_length (cs : List Card) (h : List Card)
    (hs : straightHand cs = some h) : h.length ≤ 5 := by
  simp only [straightHand] at hs
  split_ifs at hs with hlen
  exact straightScan_length cs cs 0 h hs

/-- `Hand.four_of_a_kind` returns at most five cards. -/
lemma fourOfAKind_length (cards hh : List Card)
    (h : fourOfAKind cards (rankOccurrences cards) = some hh) : hh.length ≤ 5 := by
  unfold fourOfAKind at h
  rcases hq : allNOfAKind 4 cards (rankOccurrences cards) with _ | ⟨q, qs⟩
  · rw [hq] at h
    exact absurd h (by simp)
  · rw [hq] at h
    injection h with h'
    rw [← h']
    apply extendTo5_length
    have hq4 : q.length = 4 := allN_mem_length 4 cards q (by rw [hq]; simp)
    omega

/-- `Hand.full_house` returns exactly five cards. -/
lemma fullHouse_length (cards hh : List Card)
    (h : fullHouse cards (rankOccurrences cards) = some hh) : hh.length ≤ 5 := by
  unfold fullHouse at h
  rcases ht : allNOfAKind 3 cards (rankOccurrences cards) with _ | ⟨t, ts'⟩
  · rw [ht] at h
    exact absurd h (by simp)
  · rw [ht] at h
    rcases hp : allNOfAKind 2 cards (rankOccurrences cards) with _ | ⟨p, ps⟩
    · rw [hp] at h
      exact absurd h (by simp)
    · rw [hp] at h
      injection h with h'
      have ht3 : t.length = 3 := allN_mem_length 3 cards t (by rw [ht]; simp)
      have hp2 : p.length = 2 := allN_mem_length 2 cards p (by rw [hp]; simp)
      rw [← h']
      simp [ht3, hp2]

/-- `Hand.three_of_a_kind` returns at most five cards. -/
lemma threeOfAKind_length (cards hh : List Card)
    (h : threeOfAKind cards (rankOccurrences cards) = some hh) : hh.length ≤ 5 := by
  simp only [threeOfAKind] at h
  split_ifs at h
  injection h with h'
  rw [← h']
  apply extendTo5_length
  have := List.length_take_le 3 (pySortDesc ((((allNOfAKind 4 cards (rankOccurrences cards)).map (fun g => g.take 3)).flatten ++ (allNOfAKind 3 cards (rankOccurrences cards)).flatten)))
  omega

/-- `Hand.two_pair` returns at most five cards. -/
lemma twoPair_length (cards hh : List Card)
    (h : twoPair cards (rankOccurrences cards) = some hh) : hh.length ≤ 5 := by
  simp only [twoPair] at h
  split_ifs at h
  injection h with h'
  rw [← h']
  apply extendTo5_length
  have := List.length_take_le 4 (pySortDesc ((((allNOfAKind 4 cards (rankOccurrences cards)).map (fun g => g.take 2 ++ g.drop 2)).flatten ++ ((allNOfAKind 3 cards (rankOccurrences cards)).map (fun g => g.take 2)).flatten ++ (allNOfAKind 2 cards (rankOccurrences cards)).flatten)))
  omega

/-- `Hand.pair` returns at most five cards. -/
lemma pairHand_length (cards hh : List Card)
    (h : pairHand cards (rankOccurrences cards) = some hh) : hh.length ≤ 5 := by
  simp only [pairHand] at h
  split_ifs at h
  injection h with h'
  rw [← h']
  apply extendTo5_length
  have := List.length_take_le 2 (pySortDesc ((((allNOfAKind 4 cards (rankOccurrences cards)).map (fun g => g.take 2 ++ g.drop 2)).flatten ++ ((allNOfAKind 3 cards (rankOccurrences cards)).map (fun g => g.take 2)).flatten ++ (allNOfAKind 2 cards (rankOccurrences cards)).flatten)))
  omega

/-- C10 (amended): hand construction is total on valid input — for
every list of at least five distinct well-formed card tokens it
returns a hand (falling through to high card when no category matches)
— and in every category the resulting best-five sequence has AT MOST
five cards. -/
theorem c10_mkHand_total (ts : List String) (hnd : ts.Nodup) (hlen : 5 ≤ ts.length)
    (hp : ∀ t ∈ ts, (parseCard t).isSome = true) :
    ∃ h, mkHand ts = some h ∧ h.cards.length ≤ 5 := by
  unfold mkHand
  rw [if_neg (not_not_intro hnd), if_neg (by omega), mapM_parseCard_eq ts hp]
  dsimp only
  split
  next x heq =>
    refine ⟨_, rfl, ?_⟩
    rcases hff : flushCards (pySortDesc (ts.map parseCardD)) false with _ | fl <;>
      rw [hff] at heq
    · exact absurd heq (by simp)
    · exact straightHand_length _ _ heq
  next =>
    split
    next x heq =>
      exact ⟨_, rfl, fourOfAKind_length _ _ heq⟩
    next =>
      split
      next x heq =>
        exact ⟨_, rfl, fullHouse_length _ _ heq⟩
      next =>
        split
        next fl heq =>
          refine ⟨_, rfl, ?_⟩
          simp [List.length_take]
        next =>
          split
          next x heq =>
            exact ⟨_, rfl, straightHand_length _ _ heq⟩
          next =>
            split
            next x heq =>
              exact ⟨_, rfl, threeOfAKind_length _ _ heq⟩
            next =>
              split
              next x heq =>
                exact ⟨_, rfl, twoPair_length _ _ heq⟩
              next =>
                split
                next x heq =>
                  exact ⟨_, rfl, pairHand_length _ _ heq⟩
                next =>
                  refine ⟨_, rfl, ?_⟩
                  simp [List.length_take]


/-- Witness for `c10_mkHand_total` at a concrete 5-token input. -/
theorem c10_mkHand_total_witness :
    ∃ h, mkHand ["as", "kd", "qc", "jh", "9s"] = some h ∧ h.cards.length ≤ 5 :=
  c10_mkHand_total ["as", "kd", "qc", "jh", "9s"] (by decide) (by decide) (by decide)


/-- The rank sequence of a card list. -/
abbrev rkSeq (l : List Card) : List Nat := l.map Card.rank

lemma insertDescCard_perm (c : Card) (l : List Card) :
    List.Perm (insertDescCard c l) (c :: l) := by
  induction l with
  | nil => rfl
  | cons d rest ih =>
    unfold insertDescCard
    split_ifs with hd
    · exact (ih.cons d).trans (List.Perm.swap c d rest)
    · rfl

lemma pySortDesc_perm (l : List Card) : List.Perm (pySortDesc l) l := by
  induction l with
  | nil => rfl
  | cons c rest ih =>
    exact (insertDescCard_perm c (pySortDesc rest)).trans (ih.cons c)

lemma insertDescCard_sorted (c : Card) (l : List Card)
    (h : l.Pairwise (fun a b => b.rank ≤ a.rank)) :
    (insertDescCard c l).Pairwise (fun a b => b.rank ≤ a.rank) := by
  induction l with
  | nil => simp [insertDescCard]
  | cons d rest ih =>
    rw [List.pairwise_cons] at h
    unfold insertDescCard
    split_ifs with hd
    · rw [List.pairwise_cons]
      constructor
      · intro x hx
        rcases List.mem_cons.mp ((insertDescCard_perm c rest).mem_iff.mp hx) with hxc | hxr
        · subst hxc
          omega
        · exact h.1 x hxr
      · exact ih h.2
    · rw [List.pairwise_cons]
      constructor
      · intro x hx
        rcases List.mem_cons.mp hx with hxd | hxr
        · subst hxd
          omega
        · have := h.1 x hxr
          omega
      · exact List.pairwise_cons.mpr h

lemma pySortDesc_sorted (l : List Card) :
    (pySortDesc l).Pairwise (fun a b => b.rank ≤ a.rank) := by
  induction l with
  | nil => simp [pySortDesc]
  | cons c rest ih => exact insertDescCard_sorted c (pySortDesc rest) ih

lemma natSorted_unique (m1 m2 : List Nat) (hp : List.Perm m1 m2)
    (h1 : m1.Pairwise (fun a b => b ≤ a)) (h2 : m2.Pairwise (fun a b => b ≤ a)) :
    m1 = m2 := by
  haveI : IsAntisymm Nat (fun a b => b ≤ a) := ⟨fun a b hab hba => le_antisymm hba hab⟩
  exact List.eq_of_perm_of_sorted hp h1 h2

/-- Two permuted card lists have the same rank sequence after the
stable descending sort. -/
lemma pySortDesc_rank_congr (l1 l2 : List Card) (hp : List.Perm l1 l2) :
    rkSeq (pySortDesc l1) = rkSeq (pySortDesc l2) := by
  apply natSorted_unique
  · exact ((pySortDesc_perm l1).trans (hp.trans (pySortDesc_perm l2).symm)).map Card.rank
  · exact (pySortDesc_sorted l1).map Card.rank (fun a b hab => hab)
  · exact (pySortDesc_sorted l2).map Card.rank (fun a b hab => hab)

/-- Two card lists all of one suit with equal rank sequences are
equal. -/
lemma eq_of_uniform_suit (fs : Nat) (l1 l2 : List Card)
    (h1 : ∀ c ∈ l1, c.suit = fs) (h2 : ∀ c ∈ l2, c.suit = fs)
    (hr : rkSeq l1 = rkSeq l2) : l1 = l2 := by
  induction l1 generalizing l2 with
  | nil =>
    cases l2 with
    | nil => rfl
    | cons b bs => simp [rkSeq] at hr
  | cons a as' ih =>
    cases l2 with
    | nil => simp [rkSeq] at hr
    | cons b bs =>
      simp only [rkSeq, List.map_cons, List.cons.injEq] at hr
      have hsa : a.suit = fs := h1 a (by simp)
      have hsb : b.suit = fs := h2 b (by simp)
      have hab : a = b := by
        cases a
        cases b
        simp_all
      rw [hab, ih bs (fun c hc => h1 c (by simp [hc]))
        (fun c hc => h2 c (by simp [hc])) hr.2]

/-- Under a permutation of the input, filtering the sorted list to one
suit yields the SAME card list (within one suit the rank order
determines the cards). -/
lemma pySortDesc_filter_suit_congr (l1 l2 : List Card) (fs : Nat)
    (hp : List.Perm l1 l2) :
    (pySortDesc l1).filter (fun c => c.suit = fs)
      = (pySortDesc l2).filter (fun c => c.suit = fs) := by
  apply eq_of_uniform_suit fs
  · intro c hc
    simpa using (List.mem_filter.mp hc).2
  · intro c hc
    simpa using (List.mem_filter.mp hc).2
  · apply natSorted_unique
    · exact (((pySortDesc_perm l1).trans (hp.trans (pySortDesc_perm l2).symm)).filter _).map Card.rank
    · exact ((pySortDesc_sorted l1).filter _).map Card.rank (fun a b hab => hab)
    · exact ((pySortDesc_sorted l2).filter _).map Card.rank (fun a b hab => hab)

/-- `Hand.flush` gives literally equal results on permuted inputs
(after the sort). -/
lemma flushCards_congr (l1 l2 : List Card) (b : Bool) (hp : List.Perm l1 l2) :
    flushCards (pySortDesc l1) b = flushCards (pySortDesc l2) b := by
  have hcount : ∀ s : Nat,
      (pySortDesc l1).countP (fun c => c.suit = s)
        = (pySortDesc l2).countP (fun c => c.suit = s) := by
    intro s
    exact ((pySortDesc_perm l1).trans (hp.trans (pySortDesc_perm l2).symm)).countP_eq _
  simp only [flushCards]
  have hpred : (fun s : Nat => decide ((pySortDesc l1).countP (fun c => c.suit = s) ≥ 5))
      = (fun s : Nat => decide ((pySortDesc l2).countP (fun c => c.suit = s) ≥ 5)) := by
    funext s
    rw [hcount s]
  rw [hpred]
  cases hfind : [0, 1, 2, 3].find?
      (fun s : Nat => decide ((pySortDesc l2).countP (fun c => c.suit = s) ≥ 5)) with
  | none => rfl
  | some fs =>
    dsimp only
    rw [pySortDesc_filter_suit_congr l1 l2 fs hp]

lemma rkSeq_length (l : List Card) : (rkSeq l).length = l.length := by
  simp [rkSeq]

lemma rankOccurrences_congr (l1 l2 : List Card) (h : rkSeq l1 = rkSeq l2) :
    rankOccurrences l1 = rankOccurrences l2 := by
  unfold rankOccurrences
  apply List.map_congr_left
  intro r _
  have e1 : (rkSeq l1).countP (fun x => decide (x = r))
      = l1.countP (fun c => decide (c.rank = r)) :=
    List.countP_map (fun x => decide (x = r)) Card.rank l1
  have e2 : (rkSeq l2).countP (fun x => decide (x = r))
      = l2.countP (fun c => decide (c.rank = r)) :=
    List.countP_map (fun x => decide (x = r)) Card.rank l2
  rw [← e1, ← e2, h]

lemma rkSeq_filter_rank (l : List Card) (r : Nat) :
    rkSeq (l.filter (fun c => c.rank = r)) = (rkSeq l).filter (fun x => x = r) := by
  induction l with
  | nil => rfl
  | cons c rest ih =>
    by_cases hc : c.rank = r <;> simp [rkSeq, List.filter_cons, hc] <;>
      simpa [rkSeq] using ih

lemma allN_rk_congr (n : Nat) (occ : List Nat) (l1 l2 : List Card)
    (h : rkSeq l1 = rkSeq l2) :
    (allNOfAKind n l1 occ).map rkSeq = (allNOfAKind n l2 occ).map rkSeq := by
  unfold allNOfAKind
  rw [List.map_filterMap, List.map_filterMap]
  apply List.filterMap_congr
  intro r _
  by_cases hocc : occ.getD r 0 = n <;> simp [hocc, rkSeq_filter_rank, h]

lemma any_rank (l : List Card) (x : Nat) :
    ((rkSeq l).any fun y => decide (y = x)) = l.any fun d => decide (d.rank = x) := by
  induction l with
  | nil => rfl
  | cons c rest ih => simp [rkSeq, List.any_cons, ih]

lemma extendTo5_rk_congr (f1 f2 c1 c2 : List Card)
    (hf : rkSeq f1 = rkSeq f2) (hc : rkSeq c1 = rkSeq c2) :
    rkSeq (extendTo5 f1 c1) = rkSeq (extendTo5 f2 c2) := by
  induction c1 generalizing c2 f1 f2 with
  | nil =>
    cases c2 with
    | nil => exact hf
    | cons b r2 => simp [rkSeq] at hc
  | cons a r1 ih =>
    cases c2 with
    | nil => simp [rkSeq] at hc
    | cons b r2 =>
      simp only [rkSeq, List.map_cons, List.cons.injEq] at hc
      have hlen : f1.length = f2.length := by
        rw [← rkSeq_length, ← rkSeq_length, hf]
      have hany : (f1.any fun d => d.rank = a.rank)
          = (f2.any fun d => d.rank = b.rank) := by
        rw [← any_rank f1 a.rank, ← any_rank f2 b.rank, hf, hc.1]
      unfold extendTo5
      rw [← hlen]
      by_cases h5 : f1.length ≥ 5
      · rw [if_pos h5, if_pos h5]
        exact hf
      · rw [if_neg h5, if_neg h5, hany]
        by_cases hm : (f2.any fun d => d.rank = b.rank) = true
        · rw [if_pos hm, if_pos hm]
          exact ih f1 f2 r2 hf hc.2
        · rw [if_neg hm, if_neg hm]
          exact ih (f1 ++ [a]) (f2 ++ [b]) r2 (by simp [rkSeq, hf, hc.1]) hc.2

lemma isDescRun_congr (l1 l2 : List Card) (h : rkSeq l1 = rkSeq l2) :
    isDescRun l1 = isDescRun l2 := by
  induction l1 generalizing l2 with
  | nil =>
    cases l2 with
    | nil => rfl
    | cons b r2 => simp [rkSeq] at h
  | cons a r1 ih =>
    cases l2 with
    | nil => simp [rkSeq] at h
    | cons b r2 =>
      simp only [rkSeq, List.map_cons, List.cons.injEq] at h
      cases r1 with
      | nil =>
        cases r2 with
        | nil => rfl
        | cons b2 r2' => simp [rkSeq] at h
      | cons a2 r1' =>
        cases r2 with
        | nil => simp [rkSeq] at h
        | cons b2 r2' =>
          have hh : a2.rank = b2.rank := by
            have := h.2
            simp only [List.map_cons, List.cons.injEq] at this
            exact this.1
          unfold isDescRun
          rw [h.1, hh, ih (b2 :: r2') (by simpa [rkSeq] using h.2)]

lemma areConsecutiveDescCards_congr (l1 l2 : List Card) (i k : Nat)
    (h : rkSeq l1 = rkSeq l2) :
    areConsecutiveDescCards l1 i k = areConsecutiveDescCards l2 i k := by
  have hlen : l1.length = l2.length := by
    rw [← rkSeq_length, ← rkSeq_length, h]
  unfold areConsecutiveDescCards
  rw [← hlen]
  by_cases hg : (i + k > l1.length || l1.length < 2 || k < 2) = true
  · rw [if_pos hg, if_pos hg]
  · rw [if_neg hg, if_neg hg]
    apply isDescRun_congr
    rw [rkSeq, rkSeq, List.map_take, List.map_take, List.map_drop, List.map_drop]
    rw [show List.map Card.rank l1 = rkSeq l1 from rfl]
    rw [show List.map Card.rank l2 = rkSeq l2 from rfl]
    rw [h]

lemma headI_rank_congr (u1 u2 : List Card) (h : rkSeq u1 = rkSeq u2) :
    u1.headI.rank = u2.headI.rank := by
  cases u1 with
  | nil =>
    cases u2 with
    | nil => rfl
    | cons b r2 => simp [rkSeq] at h
  | cons a r1 =>
    cases u2 with
    | nil => simp [rkSeq] at h
    | cons b r2 =>
      simp only [rkSeq, List.map_cons, List.cons.injEq] at h
      simpa using h.1

lemma rkSeq_slice (l : List Card) (i k : Nat) :
    rkSeq ((l.drop i).take k) = ((rkSeq l).drop i).take k := by
  rw [rkSeq, rkSeq, ← List.map_drop, ← List.map_take]

lemma straightScan_rk_congr (u1 u2 s1 s2 : List Card) (i : Nat)
    (hu : rkSeq u1 = rkSeq u2) (hs : rkSeq s1 = rkSeq s2) :
    (straightScan u1 s1 i).map rkSeq = (straightScan u2 s2 i).map rkSeq := by
  induction s1 generalizing s2 i with
  | nil =>
    cases s2 with
    | nil => rfl
    | cons b r2 => simp at hs
  | cons a r1 ih =>
    cases s2 with
    | nil => simp at hs
    | cons b r2 =>
      simp only [rkSeq, List.map_cons, List.cons.injEq] at hs
      unfold straightScan
      rw [hs.1, headI_rank_congr u1 u2 hu, areConsecutiveDescCards_congr u1 u2 i 4 hu,
        areConsecutiveDescCards_congr u1 u2 i 5 hu]
      by_cases h1 : (b.rank = 5 && u2.headI.rank = 14 && areConsecutiveDescCards u2 i 4) = true
      · rw [if_pos h1, if_pos h1]
        rw [Option.map_some', Option.map_some']
        rw [rkSeq, rkSeq, List.map_append, List.map_append, ← rkSeq, ← rkSeq, ← rkSeq, ← rkSeq]
        rw [rkSeq_slice, rkSeq_slice, hu]
        rw [show rkSeq (u1.take 1) = (rkSeq u1).take 1 from List.map_take ..]
        rw [show rkSeq (u2.take 1) = (rkSeq u2).take 1 from List.map_take ..]
        rw [hu]
      · rw [if_neg h1, if_neg h1]
        by_cases h2 : areConsecutiveDescCards u2 i 5 = true
        · rw [if_pos h2, if_pos h2]
          rw [Option.map_some', Option.map_some']
          rw [rkSeq_slice, rkSeq_slice, hu]
        · rw [if_neg h2, if_neg h2]
          exact ih r2 (i + 1) hs.2

lemma straightHand_rk_congr (cs1 cs2 : List Card) (h : rkSeq cs1 = rkSeq cs2) :
    (straightHand cs1).map rkSeq = (straightHand cs2).map rkSeq := by
  have hlen : cs1.length = cs2.length := by
    rw [← rkSeq_length, ← rkSeq_length, h]
  simp only [straightHand]
  rw [← hlen]
  by_cases h5 : cs1.length < 5
  · rw [if_pos h5, if_pos h5]
  · rw [if_neg h5, if_neg h5]
    exact straightScan_rk_congr cs1 cs2 cs1 cs2 0 h h

/-- The stable sort preserves rank-sequence congruence. -/
lemma pySortDesc_rkSeq_congr (l1 l2 : List Card) (h : rkSeq l1 = rkSeq l2) :
    rkSeq (pySortDesc l1) = rkSeq (pySortDesc l2) := by
  have p1 : List.Perm (rkSeq (pySortDesc l1)) (rkSeq l1) :=
    (pySortDesc_perm l1).map Card.rank
  have p2 : List.Perm (rkSeq l2) (rkSeq (pySortDesc l2)) :=
    ((pySortDesc_perm l2).map Card.rank).symm
  rw [h] at p1
  apply natSorted_unique
  · exact p1.trans p2
  · exact (pySortDesc_sorted l1).map Card.rank (fun a b hab => hab)
  · exact (pySortDesc_sorted l2).map Card.rank (fun a b hab => hab)

/-- Two group lists with equal rank-sequence images are both empty or
both nonempty with rank-equal heads. -/
lemma map_rk_heads (A1 A2 : List (List Card)) (hg : A1.map rkSeq = A2.map rkSeq) :
    (A1 = [] ∧ A2 = [])
    ∨ (∃ q1 t1 q2 t2, A1 = q1 :: t1 ∧ A2 = q2 :: t2 ∧ rkSeq q1 = rkSeq q2
        ∧ t1.map rkSeq = t2.map rkSeq) := by
  cases A1 with
  | nil =>
    cases A2 with
    | nil => exact Or.inl ⟨rfl, rfl⟩
    | cons b t => simp at hg
  | cons a t1 =>
    cases A2 with
    | nil => simp at hg
    | cons b t2 =>
      simp only [List.map_cons, List.cons.injEq] at hg
      exact Or.inr ⟨a, t1, b, t2, rfl, rfl, hg.1, hg.2⟩

lemma fourOfAKind_rk_congr (occ : List Nat) (l1 l2 : List Card)
    (h : rkSeq l1 = rkSeq l2) :
    (fourOfAKind l1 occ).map rkSeq = (fourOfAKind l2 occ).map rkSeq := by
  have hg := allN_rk_congr 4 occ l1 l2 h
  unfold fourOfAKind
  rcases map_rk_heads _ _ hg with ⟨h1, h2⟩ | ⟨q1, t1, q2, t2, h1, h2, hq, _⟩ <;>
    rw [h1, h2]
  dsimp only
  rw [Option.map_some', Option.map_some']
  rw [extendTo5_rk_congr q1 q2 l1 l2 hq h]

lemma fullHouse_rk_congr (occ : List Nat) (l1 l2 : List Card)
    (h : rkSeq l1 = rkSeq l2) :
    (fullHouse l1 occ).map rkSeq = (fullHouse l2 occ).map rkSeq := by
  have hg3 := allN_rk_congr 3 occ l1 l2 h
  have hg2 := allN_rk_congr 2 occ l1 l2 h
  unfold fullHouse
  rcases map_rk_heads _ _ hg3 with ⟨h31, h32⟩ | ⟨t1, ts1, t2, ts2, h31, h32, h3, _⟩ <;>
    rw [h31, h32]
  dsimp only
  rcases map_rk_heads _ _ hg2 with ⟨h21, h22⟩ | ⟨p1, ps1, p2, ps2, h21, h22, h2, _⟩ <;>
    rw [h21, h22]
  dsimp only
  rw [Option.map_some', Option.map_some']
  rw [show rkSeq (t1 ++ p1) = rkSeq t1 ++ rkSeq p1 from List.map_append ..]
  rw [show rkSeq (t2 ++ p2) = rkSeq t2 ++ rkSeq p2 from List.map_append ..]
  rw [h3, h2]

lemma flatten_rk_congr (gs1 gs2 : List (List Card))
    (h : gs1.map rkSeq = gs2.map rkSeq) :
    rkSeq gs1.flatten = rkSeq gs2.flatten := by
  induction gs1 generalizing gs2 with
  | nil =>
    cases gs2 with
    | nil => rfl
    | cons g2 r2 => simp at h
  | cons g1 r1 ih =>
    cases gs2 with
    | nil => simp at h
    | cons g2 r2 =>
      simp only [List.map_cons, List.cons.injEq] at h
      rw [List.flatten_cons, List.flatten_cons]
      rw [show rkSeq (g1 ++ r1.flatten) = rkSeq g1 ++ rkSeq r1.flatten from List.map_append ..]
      rw [show rkSeq (g2 ++ r2.flatten) = rkSeq g2 ++ rkSeq r2.flatten from List.map_append ..]
      rw [h.1, ih r2 h.2]

lemma map_take_rk_congr (k : Nat) (gs1 gs2 : List (List Card))
    (h : gs1.map rkSeq = gs2.map rkSeq) :
    (gs1.map (fun g => g.take k)).map rkSeq = (gs2.map (fun g => g.take k)).map rkSeq := by
  induction gs1 generalizing gs2 with
  | nil =>
    cases gs2 with
    | nil => rfl
    | cons g2 r2 => simp at h
  | cons g1 r1 ih =>
    cases gs2 with
    | nil => simp at h
    | cons g2 r2 =>
      simp only [List.map_cons, List.cons.injEq] at h ⊢
      constructor
      · rw [show rkSeq (g1.take k) = (rkSeq g1).take k from List.map_take ..]
        rw [show rkSeq (g2.take k) = (rkSeq g2).take k from List.map_take ..]
        rw [h.1]
      · exact ih r2 h.2

lemma map_takeDrop_rk_congr (gs1 gs2 : List (List Card))
    (h : gs1.map rkSeq = gs2.map rkSeq) :
    (gs1.map (fun g => g.take 2 ++ g.drop 2)).map rkSeq
      = (gs2.map (fun g => g.take 2 ++ g.drop 2)).map rkSeq := by
  rw [show (fun (g : List Card) => g.take 2 ++ g.drop 2) = (fun g => g) from
    funext (fun g => List.take_append_drop 2 g)]
  simpa using h

/-- The shared tail of `three_of_a_kind`/`two_pair`/`pair`: threshold
check, stable sort, take, kicker extension — congruent in the rank
sequences. -/
lemma sortTakeExtend_rk_congr (k thr : Nat) (f1 f2 l1 l2 : List Card)
    (hfl : rkSeq f1 = rkSeq f2) (h : rkSeq l1 = rkSeq l2) :
    (if f1.length < thr then none
      else some (extendTo5 ((pySortDesc f1).take k) l1)).map rkSeq
    = (if f2.length < thr then none
      else some (extendTo5 ((pySortDesc f2).take k) l2)).map rkSeq := by
  have hlen : f1.length = f2.length := by
    rw [← rkSeq_length, ← rkSeq_length, hfl]
  rw [← hlen]
  by_cases hc : f1.length < thr
  · rw [if_pos hc, if_pos hc]
  · rw [if_neg hc, if_neg hc, Option.map_some', Option.map_some']
    have hs := pySortDesc_rkSeq_congr _ _ hfl
    have htk : rkSeq ((pySortDesc f1).take k) = rkSeq ((pySortDesc f2).take k) := by
      rw [show rkSeq ((pySortDesc f1).take k) = (rkSeq (pySortDesc f1)).take k from
        List.map_take ..]
      rw [show rkSeq ((pySortDesc f2).take k) = (rkSeq (pySortDesc f2)).take k from
        List.map_take ..]
      rw [hs]
    rw [extendTo5_rk_congr _ _ l1 l2 htk h]

lemma threeOfAKind_rk_congr (occ : List Nat) (l1 l2 : List Card)
    (h : rkSeq l1 = rkSeq l2) :
    (threeOfAKind l1 occ).map rkSeq = (threeOfAKind l2 occ).map rkSeq := by
  have hg4 := allN_rk_congr 4 occ l1 l2 h
  have hg3 := allN_rk_congr 3 occ l1 l2 h
  simp only [threeOfAKind]
  apply sortTakeExtend_rk_congr 3 3 _ _ l1 l2 _ h
  rw [show ∀ a b : List Card, rkSeq (a ++ b) = rkSeq a ++ rkSeq b from
    fun a b => List.map_append ..]
  rw [show ∀ a b : List Card, rkSeq (a ++ b) = rkSeq a ++ rkSeq b from
    fun a b => List.map_append ..]
  rw [flatten_rk_congr _ _ (map_take_rk_congr 3 _ _ hg4), flatten_rk_congr _ _ hg3]

lemma twoPair_rk_congr (occ : List Nat) (l1 l2 : List Card)
    (h : rkSeq l1 = rkSeq l2) :
    (twoPair l1 occ).map rkSeq = (twoPair l2 occ).map rkSeq := by
  have hg4 := allN_rk_congr 4 occ l1 l2 h
  have hg3 := allN_rk_congr 3 occ l1 l2 h
  have hg2 := allN_rk_congr 2 occ l1 l2 h
  simp only [twoPair]
  apply sortTakeExtend_rk_congr 4 4 _ _ l1 l2 _ h
  rw [show ∀ a b : List Card, rkSeq (a ++ b) = rkSeq a ++ rkSeq b from
    fun a b => List.map_append ..]
  rw [show ∀ a b : List Card, rkSeq (a ++ b) = rkSeq a ++ rkSeq b from
    fun a b => List.map_append ..]
  rw [show ∀ a b : List Card, rkSeq (a ++ b) = rkSeq a ++ rkSeq b from
    fun a b => List.map_append ..]
  rw [show ∀ a b : List Card, rkSeq (a ++ b) = rkSeq a ++ rkSeq b from
    fun a b => List.map_append ..]
  rw [flatten_rk_congr _ _ (map_takeDrop_rk_congr _ _ hg4),
    flatten_rk_congr _ _ (map_take_rk_congr 2 _ _ hg3), flatten_rk_congr _ _ hg2]

lemma pairHand_rk_congr (occ : List Nat) (l1 l2 : List Card)
    (h : rkSeq l1 = rkSeq l2) :
    (pairHand l1 occ).map rkSeq = (pairHand l2 occ).map rkSeq := by
  have hg4 := allN_rk_congr 4 occ l1 l2 h
  have hg3 := allN_rk_congr 3 occ l1 l2 h
  have hg2 := allN_rk_congr 2 occ l1 l2 h
  simp only [pairHand]
  apply sortTakeExtend_rk_congr 2 2 _ _ l1 l2 _ h
  rw [show ∀ a b : List Card, rkSeq (a ++ b) = rkSeq a ++ rkSeq b from
    fun a b => List.map_append ..]
  rw [show ∀ a b : List Card, rkSeq (a ++ b) = rkSeq a ++ rkSeq b from
    fun a b => List.map_append ..]
  rw [show ∀ a b : List Card, rkSeq (a ++ b) = rkSeq a ++ rkSeq b from
    fun a b => List.map_append ..]
  rw [show ∀ a b : List Card, rkSeq (a ++ b) = rkSeq a ++ rkSeq b from
    fun a b => List.map_append ..]
  rw [flatten_rk_congr _ _ (map_takeDrop_rk_congr _ _ hg4),
    flatten_rk_congr _ _ (map_take_rk_congr 2 _ _ hg3), flatten_rk_congr _ _ hg2]

lemma option_rk_cases (o1 o2 : Option (List Card)) (h : o1.map rkSeq = o2.map rkSeq) :
    (∃ a b, o1 = some a ∧ o2 = some b ∧ rkSeq a = rkSeq b) ∨ (o1 = none ∧ o2 = none) := by
  cases o1 with
  | none =>
    cases o2 with
    | none => exact Or.inr ⟨rfl, rfl⟩
    | some b => simp at h
  | some a =>
    cases o2 with
    | none => simp at h
    | some b =>
      simp only [Option.map_some', Option.some.injEq] at h
      exact Or.inl ⟨a, b, rfl, rfl, h⟩

lemma mapM_parseCard_none (ts : List String)
    (h : ¬ ∀ t ∈ ts, (parseCard t).isSome = true) : ts.mapM parseCard = none := by
  induction ts with
  | nil => exact absurd (by simp) h
  | cons t ts' ih =>
    rw [List.mapM_cons]
    rcases hpt : parseCard t with _ | c
    · rfl
    · have hrest : ¬ ∀ t' ∈ ts', (parseCard t').isSome = true := by
        intro hall
        apply h
        intro x hx
        rcases List.mem_cons.mp hx with h1 | h2
        · subst h1
          simp [hpt]
        · exact hall x h2
      rw [ih hrest]
      rfl

/-- Permutation invariance of hand evaluation: permuting the input
tokens leaves the hand category and the best-five rank sequence
unchanged. -/
theorem mkHand_sig_perm (t1 t2 : List String) (hp : List.Perm t1 t2) :
    (mkHand t1).map (fun h => (h.type, rkSeq h.cards))
      = (mkHand t2).map (fun h => (h.type, rkSeq h.cards)) := by
  unfold mkHand
  by_cases hnd : t1.Nodup
  · rw [if_neg (not_not_intro hnd), if_neg (not_not_intro (hp.nodup_iff.mp hnd))]
    have hlen := hp.length_eq
    by_cases hl5 : t1.length < 5
    · rw [if_pos hl5, if_pos (by omega)]
    · rw [if_neg hl5, if_neg (by omega)]
      by_cases hall : ∀ t ∈ t1, (parseCard t).isSome = true
      · rw [mapM_parseCard_eq t1 hall,
          mapM_parseCard_eq t2 (fun x hx => hall x (hp.mem_iff.mpr hx))]
        dsimp only
        have hpp : List.Perm (t1.map parseCardD) (t2.map parseCardD) := hp.map parseCardD
        have hrk : rkSeq (pySortDesc (t1.map parseCardD))
            = rkSeq (pySortDesc (t2.map parseCardD)) := pySortDesc_rank_congr _ _ hpp
        have hocc : rankOccurrences (pySortDesc (t1.map parseCardD))
            = rankOccurrences (pySortDesc (t2.map parseCardD)) :=
          rankOccurrences_congr _ _ hrk
        have hfl : flushCards (pySortDesc (t1.map parseCardD)) false
            = flushCards (pySortDesc (t2.map parseCardD)) false :=
          flushCards_congr _ _ false hpp
        rw [hfl, hocc]
        rcases hsf : (match flushCards (pySortDesc (t2.map parseCardD)) false with
          | some fl => straightHand fl
          | none => none) with _ | sfh <;> rw [hsf] <;> dsimp only <;> try rfl
        rcases option_rk_cases _ _ (fourOfAKind_rk_congr
            (rankOccurrences (pySortDesc (t2.map parseCardD))) _ _ hrk) with
          ⟨a, b, h4a, h4b, h4ab⟩ | ⟨h4a, h4b⟩ <;> rw [h4a, h4b] <;> dsimp only
        · rw [Option.map_some', Option.map_some', h4ab]
        rcases option_rk_cases _ _ (fullHouse_rk_congr
            (rankOccurrences (pySortDesc (t2.map parseCardD))) _ _ hrk) with
          ⟨a, b, hfa, hfb, hfab⟩ | ⟨hfa, hfb⟩ <;> rw [hfa, hfb] <;> dsimp only
        · rw [Option.map_some', Option.map_some', hfab]
        rcases haf : flushCards (pySortDesc (t2.map parseCardD)) false with _ | fl <;>
          dsimp only <;> try rfl
        rcases option_rk_cases _ _ (straightHand_rk_congr _ _ hrk) with
          ⟨a, b, hsa, hsb, hsab⟩ | ⟨hsa, hsb⟩ <;> rw [hsa, hsb] <;> dsimp only
        · rw [Option.map_some', Option.map_some', hsab]
        rcases option_rk_cases _ _ (threeOfAKind_rk_congr
            (rankOccurrences (pySortDesc (t2.map parseCardD))) _ _ hrk) with
          ⟨a, b, hta, htb, htab⟩ | ⟨hta, htb⟩ <;> rw [hta, htb] <;> dsimp only
        · rw [Option.map_some', Option.map_some', htab]
        rcases option_rk_cases _ _ (twoPair_rk_congr
            (rankOccurrences (pySortDesc (t2.map parseCardD))) _ _ hrk) with
          ⟨a, b, hwa, hwb, hwab⟩ | ⟨hwa, hwb⟩ <;> rw [hwa, hwb] <;> dsimp only
        · rw [Option.map_some', Option.map_some', hwab]
        rcases option_rk_cases _ _ (pairHand_rk_congr
            (rankOccurrences (pySortDesc (t2.map parseCardD))) _ _ hrk) with
          ⟨a, b, hpa, hpb, hpab⟩ | ⟨hpa, hpb⟩ <;> rw [hpa, hpb] <;> dsimp only
        · rw [Option.map_some', Option.map_some', hpab]
        rw [Option.map_some', Option.map_some']
        rw [show rkSeq ((pySortDesc (t1.map parseCardD)).take 5)
          = (rkSeq (pySortDesc (t1.map parseCardD))).take 5 from List.map_take ..]
        rw [show rkSeq ((pySortDesc (t2.map parseCardD)).take 5)
          = (rkSeq (pySortDesc (t2.map parseCardD))).take 5 from List.map_take ..]
        rw [hrk]
      · rw [mapM_parseCard_none t1 hall, mapM_parseCard_none t2 (by
          intro hall2
          exact hall (fun x hx => hall2 x (hp.mem_iff.mp hx)))]
  · rw [if_pos hnd, if_pos (fun hnd2 => hnd (hp.nodup_iff.mpr hnd2))]

lemma filter_pySortDesc_eq (l : List Card) (fs : Nat) :
    (pySortDesc l).filter (fun c => c.suit = fs)
      = pySortDesc (l.filter (fun c => c.suit = fs)) := by
  apply eq_of_uniform_suit fs
  · intro c hc
    simpa using (List.mem_filter.mp hc).2
  · intro c hc
    have hm := (pySortDesc_perm _).mem_iff.mp hc
    simpa using (List.mem_filter.mp hm).2
  · apply natSorted_unique
    · exact (((pySortDesc_perm l).filter _).trans
        (pySortDesc_perm (l.filter (fun c => c.suit = fs))).symm).map Card.rank
    · exact ((pySortDesc_sorted l).filter _).map Card.rank (fun a b hab => hab)
    · exact (pySortDesc_sorted _).map Card.rank (fun a b hab => hab)

lemma mapM_parseCard_some (ts : List String) (parsed : List Card)
    (h : ts.mapM parseCard = some parsed) : parsed = ts.map parseCardD := by
  by_cases hall : ∀ t ∈ ts, (parseCard t).isSome = true
  · rw [mapM_parseCard_eq ts hall] at h
    injection h with h'
    exact h'.symm
  · rw [mapM_parseCard_none ts hall] at h
    exact absurd h (by simp)

/-- When the evaluation outcome is a flush, the chosen best five are
the five highest cards of a suit holding at least five members. -/
theorem mkHand_flush_property (ts : List String) (h : Hand)
    (hmk : mkHand ts = some h) (htype : h.type = .flush) :
    ∃ fs, 5 ≤ (ts.map parseCardD).countP (fun c => c.suit = fs)
      ∧ h.cards = (pySortDesc ((ts.map parseCardD).filter
          (fun c => c.suit = fs))).take 5 := by
  unfold mkHand at hmk
  split_ifs at hmk
  rcases hmm : ts.mapM parseCard with _ | parsed <;> rw [hmm] at hmk
  · exact absurd hmk (by simp)
  have hparsed := mapM_parseCard_some ts parsed hmm
  subst hparsed
  dsimp only at hmk
  split at hmk
  · injection hmk with hh
    rw [← hh] at htype
    simp at htype
  split at hmk
  · injection hmk with hh
    rw [← hh] at htype
    simp at htype
  split at hmk
  · injection hmk with hh
    rw [← hh] at htype
    simp at htype
  split at hmk
  case _ fl heq =>
    injection hmk with hh
    simp only [flushCards] at heq
    rcases hfind : [0, 1, 2, 3].find? (fun s : Nat =>
        decide ((pySortDesc (ts.map parseCardD)).countP (fun c => c.suit = s) ≥ 5))
      with _ | fs <;> rw [hfind] at heq
    · exact absurd heq (by simp)
    · dsimp only at heq
      injection heq with heq'
      rw [if_neg (by decide)] at heq'
      refine ⟨fs, ?_, ?_⟩
      · have hpv := List.find?_some hfind
        simp only [decide_eq_true_eq] at hpv
        calc (5 : Nat) ≤ (pySortDesc (ts.map parseCardD)).countP
              (fun c => c.suit = fs) := hpv
          _ = (ts.map parseCardD).countP (fun c => c.suit = fs) :=
            (pySortDesc_perm _).countP_eq _
      · rw [← hh]
        dsimp only
        rw [← heq', filter_pySortDesc_eq]
  split at hmk
  · injection hmk with hh
    rw [← hh] at htype
    simp at htype
  split at hmk
  · injection hmk with hh
    rw [← hh] at htype
    simp at htype
  split at hmk
  · injection hmk with hh
    rw [← hh] at htype
    simp at htype
  split at hmk
  · injection hmk with hh
    rw [← hh] at htype
    simp at htype
  injection hmk with hh
  rw [← hh] at htype
  simp at htype

def c3FlushHand : Hand :=
  ⟨(pySortDesc (["as", "ks", "qs", "js", "9s"].map parseCardD)).take 5, .flush⟩

/-- C3 (corrected): hand evaluation is invariant under permutation of the
input tokens — any reordering yields the same category and the same best-five
rank sequence — and when the outcome is a flush the chosen best five are the
five highest cards of a suit holding at least five members.  (The original
claim's further assertion that irrelevant extra cards never change the result
is refuted separately by a counterexample.) -/
theorem c3_evaluation_amended :
    (∀ t1 t2 : List String, List.Perm t1 t2 →
      (mkHand t1).map (fun h => (h.type, rkSeq h.cards))
        = (mkHand t2).map (fun h => (h.type, rkSeq h.cards)))
    ∧ (∀ (ts : List String) (h : Hand), mkHand ts = some h → h.type = .flush →
      ∃ fs, 5 ≤ (ts.map parseCardD).countP (fun c => c.suit = fs)
        ∧ h.cards = (pySortDesc ((ts.map parseCardD).filter
            (fun c => c.suit = fs))).take 5) :=
  ⟨mkHand_sig_perm, mkHand_flush_property⟩

/-- Witness for C3: a concrete reordering of a spade flush gives the same
evaluation signature, and the flush's best five are the five highest spades. -/
theorem c3_evaluation_amended_witness :
    ((mkHand ["as", "ks", "qs", "js", "9s"]).map (fun h => (h.type, rkSeq h.cards))
      = (mkHand ["9s", "as", "ks", "qs", "js"]).map (fun h => (h.type, rkSeq h.cards)))
    ∧ (∃ fs, 5 ≤ ((["as", "ks", "qs", "js", "9s"] : List String).map parseCardD).countP
          (fun c => c.suit = fs)
        ∧ c3FlushHand.cards = (pySortDesc (((["as", "ks", "qs", "js", "9s"] :
            List String).map parseCardD).filter (fun c => c.suit = fs))).take 5) :=
  ⟨c3_evaluation_amended.1 _ _ (by decide),
   c3_evaluation_amended.2 ["as", "ks", "qs", "js", "9s"] c3FlushHand
     (by decide) (by decide)⟩

end PokerEvolver
